import Mathlib

set_option maxRecDepth 8000

/-!
Verification of the PayCompute-Pro deduction pipeline
(`src/PayComputePro_AllChecks_Final.py`).

The core of the program (wage-mapping load, validators, deduction
extraction, date rotation, CSV formatting, pre-download validation) is
embedded shallowly below.  Python strings are Lean `String`s, operated on
at the character-list level; Python float values are embedded with exact
decimal semantics as `PyFloat` (an integer mantissa `m` with a power-of-ten
scale `s`, denoting `m / 10^s`), which is the data model the program's
specification assigns to amounts.  Pandas cells are `Cell` (missing/NaN,
text, or numeric); a pandas frame is a ragged list of rows accessed through
`cellAt`, which pads with NaN exactly as pandas pads short rows.
-/

/-! ### Character and string utilities (Python `str` primitives) -/

/-- The whitespace characters stripped by Python's `str.strip`. -/
def isPySpace (c : Char) : Bool :=
  c.toNat = 32 || c.toNat = 9 || c.toNat = 10 || c.toNat = 13 || c.toNat = 12 || c.toNat = 11

/-- `str.strip` on a character list: drop whitespace from both ends. -/
def trimChars (l : List Char) : List Char :=
  ((l.dropWhile isPySpace).reverse.dropWhile isPySpace).reverse

/-- Python `str.strip()`. -/
def pyStrip (s : String) : String := ⟨trimChars s.data⟩

/-- ASCII uppercase of one character (Python `str.upper` on the
program's ASCII data). -/
def pyUpperChar (c : Char) : Char :=
  if 97 ≤ c.toNat ∧ c.toNat ≤ 122 then Char.ofNat (c.toNat - 32) else c

/-- ASCII lowercase of one character. -/
def pyLowerChar (c : Char) : Char :=
  if 65 ≤ c.toNat ∧ c.toNat ≤ 90 then Char.ofNat (c.toNat + 32) else c

/-- Python `str.upper()`. -/
def pyUpper (s : String) : String := ⟨s.data.map pyUpperChar⟩

/-- Python `str.lower()`. -/
def pyLower (s : String) : String := ⟨s.data.map pyLowerChar⟩

/-- Python `str.split(sep)` for a one-character separator, on character
lists: `splitChar c []` is `[[]]`, matching `''.split(sep) == ['']`. -/
def splitChar (c : Char) : List Char → List (List Char)
  | [] => [[]]
  | x :: xs =>
    match splitChar c xs with
    | [] => [[]]
    | y :: ys => if x = c then [] :: y :: ys else (x :: y) :: ys

/-- Python `str.split(sep)` (single-character separator). -/
def pySplit (c : Char) (s : String) : List String :=
  (splitChar c s.data).map fun l => ⟨l⟩

/-- Python `sep.join(parts)`. -/
def joinSep (sep : String) : List String → String
  | [] => ""
  | [x] => x
  | x :: xs => x ++ sep ++ joinSep sep xs

/-- Does `l` start with `p`? -/
def listStarts : List Char → List Char → Bool
  | [], _ => true
  | _ :: _, [] => false
  | p :: ps, x :: xs => p = x && listStarts ps xs

/-- Python's substring test `needle in hay`. -/
def listHas (needle : List Char) : List Char → Bool
  | [] => listStarts needle []
  | x :: xs => listStarts needle (x :: xs) || listHas needle xs

/-- The digit character for `d < 10`. -/
def digitChar10 (d : ℕ) : Char := Char.ofNat (48 + d)

/-- Is `c` an ASCII digit? -/
def isDigitC (c : Char) : Bool := 48 ≤ c.toNat && c.toNat ≤ 57

/-- Numeric value of a digit character. -/
def digitVal (c : Char) : ℕ := c.toNat - 48

/-- Decimal digits of `n`, most significant first; `[]` for `n = 0`.
Structurally recursive on a fuel argument so that it evaluates in the
kernel. -/
def natChars : ℕ → ℕ → List Char
  | 0, _ => []
  | fuel + 1, n => if n = 0 then [] else natChars fuel (n / 10) ++ [digitChar10 (n % 10)]

/-- Python `str(n)` for a natural number. -/
def natStr (n : ℕ) : String := if n = 0 then "0" else ⟨natChars n n⟩

/-- Exactly `w` digit characters of `v` (mod `10^w`), zero padded. -/
def padChars : ℕ → ℕ → List Char
  | 0, _ => []
  | w + 1, v => padChars w (v / 10) ++ [digitChar10 (v % 10)]

/-- Python's `f"{n:02d}"`. -/
def pad2 (n : ℕ) : String := if n < 10 then "0" ++ natStr n else natStr n

/-- Value of a digit list, most significant first. -/
def natOfDigits (l : List Char) : ℕ := l.foldl (fun a c => a * 10 + digitVal c) 0

/-! ### Exact-decimal model of Python float values -/

/-- A Python float value with exact decimal semantics: the value
`m / 10^s`.  Every numeric value the program manipulates originates from
decimal text or spreadsheet cells and is only compared, rounded to two
decimals, and re-rendered, so exact decimals model it faithfully. -/
structure PyFloat where
  m : ℤ
  s : ℕ
  deriving DecidableEq

def pow10 (s : ℕ) : ℤ := Int.ofNat (Nat.pow 10 s)

/-- Value-level order on `PyFloat` (cross multiplication). -/
instance : LT PyFloat := ⟨fun a b => a.m * pow10 b.s < b.m * pow10 a.s⟩

instance (a b : PyFloat) : Decidable (a < b) := by
  change Decidable (a.m * pow10 b.s < b.m * pow10 a.s); infer_instance

/-- Value-level equality test (Python `==` on floats). -/
def PyFloat.veq (a b : PyFloat) : Bool := a.m * pow10 b.s = b.m * pow10 a.s

/-- The float `0.0`. -/
def pyZero : PyFloat := ⟨0, 0⟩

/-- The `AMOUNT_WARNING_THRESHOLD` constant, `10000`. -/
def pyTenThousand : PyFloat := ⟨10000, 0⟩

/-- Python `round(x, 2)` scaled by 100: round-half-even of `100 * x`,
as an integer number of hundredths. -/
def roundHalfEven2 (d : PyFloat) : ℤ :=
  let n := d.m * 100
  let p := pow10 d.s
  let q := Int.fdiv n p
  let r := n - q * p
  if 2 * r < p then q else if p < 2 * r then q + 1 else if q % 2 = 0 then q else q + 1

/-- Drop factors of ten: `while s > 0 and n % 10 == 0: n /= 10; s -= 1`. -/
def stripTenFactors (n : ℕ) : ℕ → ℕ × ℕ
  | 0 => (n, 0)
  | s + 1 => if n % 10 = 0 then stripTenFactors (n / 10) s else (n, s + 1)

/-- Python `str(x)` for a float holding an exact decimal: shortest decimal
form, always keeping one fractional digit (`500.0`, `12.3`, `0.05`). -/
def renderPyFloat (d : PyFloat) : String :=
  let n := d.m.natAbs
  let sign : String := if d.m < 0 then "-" else ""
  let p := stripTenFactors n d.s
  if p.2 = 0 then sign ++ natStr p.1 ++ ".0"
  else sign ++ natStr (p.1 / Nat.pow 10 p.2) ++ "." ++ ⟨padChars p.2 (p.1 % Nat.pow 10 p.2)⟩

/-- Python `str(round(x, 2))` given the rounded value as `k` hundredths:
shortest decimal form of `k / 100` with at least one fractional digit. -/
def renderCents (k : ℤ) : String :=
  let n := k.natAbs
  (if k < 0 then "-" else "") ++ natStr (n / 100) ++ "." ++
    (if n % 100 = 0 then "0"
     else if n % 10 = 0 then natStr (n % 100 / 10)
     else ⟨padChars 2 (n % 100)⟩)

/-- Python `str(round(x, 2))`. -/
def renderRound2 (d : PyFloat) : String := renderCents (roundHalfEven2 d)

/-- Python `f"{x:.2f}"`: always exactly two decimals. -/
def format2f (d : PyFloat) : String :=
  let k := roundHalfEven2 d
  (if k < 0 then "-" else "") ++ natStr (k.natAbs / 100) ++ "." ++ ⟨padChars 2 (k.natAbs % 100)⟩

/-- Python `float(string)`: `.error ()` models `ValueError`; `.ok none`
models a NaN result (`float("nan")`).  Handles the decimal forms the
program's data takes: optional sign, digits with at most one point, and
`"nan"` case-insensitively. -/
def parseFloatPy (str0 : String) : Except Unit (Option PyFloat) :=
  let l := trimChars str0.data
  let neg : Bool := l.head? = some '-'
  let l2 := if l.head? = some '-' ∨ l.head? = some '+' then l.tail else l
  if l2.map pyLowerChar = "nan".data then .ok none
  else
    match splitChar '.' l2 with
    | [ds] =>
      if ds ≠ [] ∧ ds.all isDigitC then
        .ok (some ⟨(if neg then -1 else 1) * Int.ofNat (natOfDigits ds), 0⟩)
      else .error ()
    | [as, bs] =>
      if (as ++ bs) ≠ [] ∧ as.all isDigitC ∧ bs.all isDigitC then
        .ok (some ⟨(if neg then -1 else 1) * Int.ofNat (natOfDigits (as ++ bs)), bs.length⟩)
      else .error ()
    | _ => .error ()

/-! ### Cells and tables (the pandas data the program reads) -/

/-- One spreadsheet cell as pandas presents it: missing (NaN), text, or
numeric. -/
inductive Cell where
  | na : Cell
  | str (s : String) : Cell
  | num (d : PyFloat) : Cell
  deriving DecidableEq

/-- Python `str(cell)`: pandas renders a missing cell as `"nan"`. -/
def pyStr : Cell → String
  | .na => "nan"
  | .str s => s
  | .num d => renderPyFloat d

/-- Python `float(cell)`: a missing cell is the float NaN, text is parsed,
numbers pass through. -/
def cellFloat : Cell → Except Unit (Option PyFloat)
  | .na => .ok none
  | .str s => parseFloatPy s
  | .num d => .ok (some d)

/-- A raw payroll table: a list of rows of cells. -/
def RawTable := List (List Cell)

/-- Number of rows (`len(payroll_df)`). -/
def tableRows (t : RawTable) : ℕ := List.length t

/-- Number of columns of the pandas frame: pandas pads every row to the
longest. -/
def tableCols (t : RawTable) : ℕ := List.foldr (fun (r : List Cell) a => max r.length a) 0 t

/-- `payroll_df.iloc[r, c]`, with pandas NaN padding outside the ragged
rows. -/
def cellAt (t : RawTable) (r c : ℕ) : Cell :=
  (((t.get? r).getD []).get? c).getD Cell.na

/-- The wage mapping: uppercase code to display component name. -/
def WageMapping := String → Option String

/-- Dictionary update `m[k] = v`. -/
def mapUpd (m : WageMapping) (k v : String) : WageMapping :=
  fun x => if x = k then some v else m x

/-! ### The data model -/

/-- One extracted deduction fact.  `pay_date` is `none` until the date
rotation assigns it. -/
structure DeductionRecord where
  emp_id : String
  emp_name : String
  code : String
  component : String
  amount : PyFloat
  pay_date : Option String
  deriving DecidableEq

/-- The `CURRENCY` configuration constant. -/
def CURRENCY : String := "AED"

/-! ### Core functions of the program -/

/-- `get_days_in_month(month, year)` (lines 327-333). -/
def get_days_in_month (month year : ℕ) : ℕ :=
  if month = 2 then
    if (year % 4 = 0 ∧ year % 100 ≠ 0) ∨ year % 400 = 0 then 29 else 28
  else if month ∈ ([4, 6, 9, 11] : List ℕ) then 30
  else 31

/-- The loop body of `load_wage_mapping` for one sheet row.
`pd.notna(cell)` is `cell ≠ Cell.na`. -/
def wageRowStep (m : WageMapping) (row : Cell × Cell) : WageMapping :=
  if row.1 ≠ Cell.na ∧ row.2 ≠ Cell.na then
    let code := pyUpper (pyStrip (pyStr row.1))
    let component := pyStrip (pyStr row.2)
    if code ∉ (["RAMCO CODE", "NOT AVAILABLE"] : List String) ∧
        component ∉ (["SAP PAYCOMPONENT", "NOT AVAILABLE"] : List String) then
      mapUpd m code component
    else m
  else m

/-- `load_wage_mapping` (lines 335-348): fold the loop body over the rows
of the two-column mapping sheet. -/
def load_wage_mapping (rows : List (Cell × Cell)) : WageMapping :=
  rows.foldl wageRowStep (fun _ => none)

/-- Row indices scanned by the validators and the extractor:
`range(2, len(payroll_df))`. -/
def dataRowIdx (t : RawTable) : List ℕ := List.range' 2 (tableRows t - 2)

/-- Column-0 staff id as `check_2` reads it:
`str(payroll_df.iloc[idx, 0]).strip()`. -/
def staffIdOf (t : RawTable) (idx : ℕ) : String := pyStrip (pyStr (cellAt t idx 0))

/-- The blank test of `check_2` and the extractor:
`not emp_id or emp_id.lower() == 'nan'`. -/
def isBlankId (s : String) : Bool := s = "" || pyLower s = "nan"

/-- The entry row `idx` contributes to `check_2`'s `invalid_ids` list:
a blank message, a too-short message, or nothing. -/
def staffInvalidMsg (t : RawTable) (idx : ℕ) : Option String :=
  let e := staffIdOf t idx
  if isBlankId e then some ("Row " ++ natStr (idx + 1) ++ ": Blank Staff ID")
  else if e.length < 5 then
    some ("Row " ++ natStr (idx + 1) ++ ": ID \x27" ++ e ++ "\x27 seems too short")
  else none

/-- `check_2_staff_id_validation` (lines 93-124); returns
`(errors, warnings, valid_ids, blank_ids)`. -/
def check_2_staff_id_validation (t : RawTable) :
    List String × List String × ℕ × ℕ :=
  let idxs := dataRowIdx t
  let valid_ids := idxs.countP fun idx =>
    let e := staffIdOf t idx
    !isBlankId e && !decide (e.length < 5)
  let blank_ids := idxs.countP fun idx => isBlankId (staffIdOf t idx)
  let invalid_ids := idxs.filterMap (staffInvalidMsg t)
  let total := valid_ids + blank_ids +
    invalid_ids.countP fun x => listHas "too short".data x.data
  let errors := if total = 0 then ["❌ No valid rows found after header"] else []
  let warnings :=
    (if total ≠ 0 ∧ 0 < blank_ids then
      ["⚠️ Found " ++ natStr blank_ids ++ " rows with blank Staff IDs"] else []) ++
    (if 0 < invalid_ids.length ∧ invalid_ids.length ≤ 5 then
      invalid_ids.map (fun e => "⚠️ " ++ e) else [])
  (errors, warnings, valid_ids, blank_ids)

/-- Header cell of column `c` as the validators and the extractor read it:
`str(headers.iloc[c]).strip().upper()`. -/
def headerValOf (t : RawTable) (c : ℕ) : String := pyUpper (pyStrip (pyStr (cellAt t 0 c)))

/-- The negative-amount message of `check_4`. -/
def negAmountMsg (t : RawTable) (r : ℕ) (d : PyFloat) : String :=
  "Row " ++ natStr (r + 1) ++ ", Emp " ++ pyStr (cellAt t r 0) ++
    ": Negative amount " ++ renderPyFloat d

/-- The high-amount message of `check_4`. -/
def highAmountMsg (t : RawTable) (r : ℕ) (d : PyFloat) : String :=
  "Row " ++ natStr (r + 1) ++ ", Emp " ++ pyStr (cellAt t r 0) ++
    ": High amount " ++ format2f d

/-- The inner-loop body of `check_4` for one data cell: append a
negative-amount message or a high-amount message (`elif`) to the
accumulated pair; unparseable cells are skipped, NaN compares false on
both tests. -/
def check4RowStep (t : RawTable) (c : ℕ) (acc : List String × List String) (r : ℕ) :
    List String × List String :=
  match cellFloat (cellAt t r c) with
  | .ok (some d) =>
    if d < pyZero then (acc.1 ++ [negAmountMsg t r d], acc.2)
    else if pyTenThousand < d then (acc.1, acc.2 ++ [highAmountMsg t r d])
    else acc
  | _ => acc

/-- The outer-loop body of `check_4` for one column: scan its data rows
when its header is a mapping key. -/
def check4ColStep (t : RawTable) (wm : WageMapping) (acc : List String × List String)
    (c : ℕ) : List String × List String :=
  if (wm (headerValOf t c)).isSome then (dataRowIdx t).foldl (check4RowStep t c) acc
  else acc

/-- The scanning loops of `check_4` (lines 166-182): column by column over
mapped headers, row by row, building the `negative_amounts` and
`suspicious_amounts` lists. -/
def check4Scan (t : RawTable) (wm : WageMapping) : List String × List String :=
  (List.range (tableCols t)).foldl (check4ColStep t wm) ([], [])

/-- `check_4_amount_range_validation` (lines 157-195): runs the scan, then
builds the returned lists, individually showing the first three items of
each kind and rolling the remainder into a count. -/
def check_4_amount_range_validation (t : RawTable) (wm : WageMapping) :
    List String × List String :=
  let scan := check4Scan t wm
  let negative_amounts := scan.1
  let suspicious_amounts := scan.2
  let errors :=
    ((negative_amounts.take 3).map fun x => "❌ " ++ x) ++
    (if 3 < negative_amounts.length then
      ["❌ ... and " ++ natStr (negative_amounts.length - 3) ++ " more negative amounts"]
     else [])
  let warnings :=
    ((suspicious_amounts.take 3).map fun a => "⚠️ Unusual: " ++ a ++ " AED (> 10000)") ++
    (if 3 < suspicious_amounts.length then
      ["⚠️ ... and " ++ natStr (suspicious_amounts.length - 3) ++ " more high amounts"]
     else [])
  (errors, warnings)

/-- The warning text of `check_8`. -/
def inconsistencyMsg (first current : String) : String :=
  "⚠️ Component case inconsistency: \x27" ++ first ++ "\x27 vs \x27" ++ current ++ "\x27"

/-- The loop of `check_8` (lines 249-255), carrying the
`components` dictionary (uppercase form to first-seen spelling). -/
def check8Aux (m : String → Option String) : List DeductionRecord → List String
  | [] => []
  | d :: ds =>
    let cu := pyUpper d.component
    match m cu with
    | none => check8Aux (fun x => if x = cu then some d.component else m x) ds
    | some c =>
      if c ≠ d.component then inconsistencyMsg c d.component :: check8Aux m ds
      else check8Aux m ds

/-- `check_8_component_consistency` (lines 244-257). -/
def check_8_component_consistency (deductions : List DeductionRecord) : List String :=
  check8Aux (fun _ => none) deductions

/-- The zero-amount test applied to one data line by `check_9`:
`len(parts) > 4` and `float(parts[4]) == 0` (parse failures and NaN
compare false). -/
def check9ZeroLine (line : String) : Bool :=
  decide (pyStrip line ≠ "") &&
    (decide (4 < (pySplit ',' line).length) &&
      match parseFloatPy ((pySplit ',' line).getD 4 "") with
      | .ok (some d) => PyFloat.veq d pyZero
      | _ => false)

/-- `check_9_pre_download_validation` (lines 259-295); returns
`(errors, warnings)`. -/
def check_9_pre_download_validation (csv_content : String) :
    List String × List String :=
  let lines := pySplit '\n' (pyStrip csv_content)
  let e1 :=
    if lines.getD 0 "" ≠ "currency-code,pay-date,pay-component-code,user-id,value,operation"
    then ["❌ Row 1: System headers incorrect"] else []
  let e2 :=
    if lines.getD 1 "" ≠ "Currency,Issue Date,Pay Component,User ID,Spot Bonus Amount,Operation"
    then ["❌ Row 2: Display headers incorrect"] else []
  let zero_count := (lines.drop 2).countP check9ZeroLine
  let e3 :=
    if 0 < zero_count then
      ["❌ Found " ++ natStr zero_count ++ " records with 0 amount (should be filtered)"]
    else []
  let e4 := if lines.length < 3 then ["❌ CSV has less than 3 rows (need headers + data)"] else []
  (e1 ++ e2 ++ e3 ++ e4, [])

/-- The `deduction_cols` index built by the extractor (lines 354-366):
columns of row 0 whose uppercase-trimmed header is a mapping key, in
column order, as `(column, ramco_code, component)`. -/
def deductionCols (t : RawTable) (wm : WageMapping) : List (ℕ × String × String) :=
  (List.range (tableCols t)).filterMap fun c =>
    let header_val := headerValOf t c
    if header_val = "NAN" ∨ header_val = "" then none
    else match wm header_val with
      | some component => some (c, header_val, component)
      | none => none

/-- `extract_deductions_row1` (lines 350-401).  `.error` carries the
failure message returned when no header matches the mapping.  Per row:
skip blank staff ids; per mapped column: parse the cell, and emit a record
only when the parse succeeds, is not NaN, and the amount is strictly
positive; parse failures skip the cell, not the row. -/
def extract_deductions_row1 (t : RawTable) (wm : WageMapping) :
    Except String (List DeductionRecord) :=
  let cols := deductionCols t wm
  if cols = [] then .error "❌ No deduction codes found in Row 1."
  else .ok <|
    (dataRowIdx t).flatMap fun r =>
      let emp_id := pyStrip (pyStr (cellAt t r 0))
      let emp_name := if 1 < tableCols t then pyStrip (pyStr (cellAt t r 1)) else "Unknown"
      if isBlankId emp_id then []
      else cols.filterMap fun col =>
        match cellFloat (cellAt t r col.1) with
        | .ok (some amount) =>
          if pyZero < amount then
            some ⟨emp_id, emp_name, col.2.1, col.2.2, amount, none⟩
          else none
        | _ => none

/-- The per-(employee, component) key of the date rotation. -/
def keyOf (r : DeductionRecord) : String × String := (r.emp_id, r.component)

/-- The `DD/MM/YYYY` format of `rotate_dates_descending`:
`f"{day:02d}/{month:02d}/{year}"`. -/
def fmtDate (day month year : ℕ) : String :=
  pad2 day ++ "/" ++ pad2 month ++ "/" ++ natStr year

/-- The loop of `rotate_dates_descending` (lines 407-415), carrying the
`date_tracker` counter: `day = days_in_month - tracker[key]`, clamped to a
minimum of 1. -/
def rotateAux (month year D : ℕ) (tracker : String × String → ℕ) :
    List DeductionRecord → List DeductionRecord
  | [] => []
  | r :: rs =>
    let k := keyOf r
    let day := if tracker k < D then D - tracker k else 1
    { r with pay_date := some (fmtDate day month year) } ::
      rotateAux month year D (fun x => if x = k then tracker k + 1 else tracker x) rs

/-- `rotate_dates_descending` (lines 403-417). -/
def rotate_dates_descending (deductions : List DeductionRecord) (month year : ℕ) :
    List DeductionRecord :=
  rotateAux month year (get_days_in_month month year) (fun _ => 0) deductions

/-- Concatenation of the written chunks of the CSV buffer. -/
def strConcat : List String → String := List.foldr (fun a b => a ++ b) ""

/-- The joined data row written for one record by the CSV formatter:
`','.join([CURRENCY, pay_date, component, emp_id, str(round(amount, 2)), ''])`. -/
def csvLineBody (d : DeductionRecord) : String :=
  joinSep "," [CURRENCY, d.pay_date.getD "", d.component, d.emp_id,
    renderRound2 d.amount, ""]

/-- The chunk written for one record: the joined row plus `'\n'`. -/
def csvLineOf (d : DeductionRecord) : String := csvLineBody d ++ "\n"

/-- `generate_csv_with_two_header_rows` (lines 419-439): two fixed header
lines, then one line per record with `amount > 0`. -/
def generate_csv_with_two_header_rows (deductions : List DeductionRecord) : String :=
  joinSep "," ["currency-code", "pay-date", "pay-component-code", "user-id", "value",
      "operation"] ++ "\n" ++
  joinSep "," ["Currency", "Issue Date", "Pay Component", "User ID", "Spot Bonus Amount",
      "Operation"] ++ "\n" ++
  strConcat ((deductions.filterMap fun d =>
    if pyZero < d.amount then some (csvLineOf d) else none))

/-! ### Specification-side definitions (stated from the spec's words,
to be compared with the embedded code) -/

/-- The Gregorian month-length table, from the claim's words: February has
29 days exactly when (y divisible by 4 and not by 100) or y divisible by
400, otherwise 28; April, June, September, November have 30; all other
months have 31. -/
def gregorianMonthLengths (y : ℕ) : List ℕ :=
  [31, if (y % 4 = 0 ∧ y % 100 ≠ 0) ∨ y % 400 = 0 then 29 else 28,
   31, 30, 31, 30, 31, 31, 30, 31, 30, 31]

/-- Gregorian day count of month `m` (1-based) of year `y`. -/
def gregorianDays (m y : ℕ) : ℕ := (gregorianMonthLengths y).getD (m - 1) 0

/-- From the amended wage-mapping claim: the contribution of one sheet row
to key `k` — its trimmed name, provided both cells are present (not NaN),
the row is not skipped, and its uppercase-trimmed code is `k`.  A row is
skipped exactly when its code is `"RAMCO CODE"` or `"NOT AVAILABLE"`, or
its name is `"SAP PAYCOMPONENT"` or `"NOT AVAILABLE"`. -/
def wageRowEntry (row : Cell × Cell) (k : String) : Option String :=
  if row.1 ≠ Cell.na ∧ row.2 ≠ Cell.na then
    let code := pyUpper (pyStrip (pyStr row.1))
    let name := pyStrip (pyStr row.2)
    if code = "RAMCO CODE" ∨ code = "NOT AVAILABLE" ∨
        name = "SAP PAYCOMPONENT" ∨ name = "NOT AVAILABLE" then none
    else if code = k then some name else none
  else none

/-- The entry the amended claim predicts for key `k`: the contribution of
the last row that yields one (last wins). -/
def wageMappingLastEntry (rows : List (Cell × Cell)) (k : String) : Option String :=
  rows.reverse.findSome? fun row => wageRowEntry row k

/-- Occurrences in `l` of records sharing the rotation key `k`. -/
def countKey (l : List DeductionRecord) (k : String × String) : ℕ :=
  l.countP fun r => decide (keyOf r = k)

/-- A record with its `pay_date` forgotten (for frame statements). -/
def erasePayDate (r : DeductionRecord) : DeductionRecord := { r with pay_date := none }

/-- Is row `idx`'s staff id blank or too short (the rows `check_2`
flags individually)? -/
def staffInvalidPred (t : RawTable) (idx : ℕ) : Bool :=
  isBlankId (staffIdOf t idx) || decide ((staffIdOf t idx).length < 5)

/-- Number of data rows with a blank or too-short staff id. -/
def staffInvalidCount (t : RawTable) : ℕ := (dataRowIdx t).countP (staffInvalidPred t)

/-- Number of data rows with a blank staff id. -/
def staffBlankCount (t : RawTable) : ℕ :=
  (dataRowIdx t).countP fun idx => isBlankId (staffIdOf t idx)

/-- The negative-amount violation of one cell, if any. -/
def negEntry (t : RawTable) (c r : ℕ) : Option String :=
  match cellFloat (cellAt t r c) with
  | .ok (some d) => if d < pyZero then some (negAmountMsg t r d) else none
  | _ => none

/-- The high-amount violation of one cell, if any (a negative amount is
not also high — the `elif`). -/
def highEntry (t : RawTable) (c r : ℕ) : Option String :=
  match cellFloat (cellAt t r c) with
  | .ok (some d) =>
    if d < pyZero then none
    else if pyTenThousand < d then some (highAmountMsg t r d) else none
  | _ => none

/-- All negative-amount violation messages, column by column over mapped
headers, row by row — the untruncated violation list. -/
def negativeAmountList (t : RawTable) (wm : WageMapping) : List String :=
  (List.range (tableCols t)).flatMap fun c =>
    if (wm (headerValOf t c)).isSome then (dataRowIdx t).filterMap (negEntry t c) else []

/-- All high-amount violation messages — the untruncated warning list. -/
def suspiciousAmountList (t : RawTable) (wm : WageMapping) : List String :=
  (List.range (tableCols t)).flatMap fun c =>
    if (wm (headerValOf t c)).isSome then (dataRowIdx t).filterMap (highEntry t c) else []

/-- From the amended component-consistency claim: walking the records in
order with the already-seen records at hand, each record whose uppercase
component was first seen with a different original spelling yields one
warning (so a colliding spelling occurring several times warns once per
occurrence). -/
def componentWarningsFrom (seen : List DeductionRecord) :
    List DeductionRecord → List String
  | [] => []
  | d :: ds =>
    let u := pyUpper d.component
    (match seen.find? (fun e => pyUpper e.component == u) with
     | some e =>
       if e.component ≠ d.component then [inconsistencyMsg e.component d.component] else []
     | none => []) ++ componentWarningsFrom (seen ++ [d]) ds

/-- The warnings the amended claim predicts for `check_8`. -/
def componentWarningsSpec (ds : List DeductionRecord) : List String :=
  componentWarningsFrom [] ds

/-- Fields that survive CSV comma-joining intact: no comma, no newline. -/
def noCommaNewline (str0 : String) : Prop := ∀ c ∈ str0.data, c ≠ ',' ∧ c ≠ '\n'

instance (str0 : String) : Decidable (noCommaNewline str0) := by
  unfold noCommaNewline
  infer_instance

/-! ### Concrete data for the example scenario, witnesses and
counterexamples -/

/-- The example wage mapping of the specification's scenario. -/
def exampleMapping : WageMapping := fun k =>
  if k = "A1" then some "Housing" else if k = "A2" then some "Transport" else none

/-- The example raw table: header row, reserved row, one data row. -/
def exampleTable : RawTable :=
  [[Cell.str "ID", Cell.str "NAME", Cell.str "A1", Cell.str "A2"],
   [Cell.na, Cell.na, Cell.na, Cell.na],
   [Cell.str "E12345", Cell.str "Jane", Cell.str "500", Cell.str "0"]]

/-- The record the example scenario extracts. -/
def exampleRecord : DeductionRecord :=
  ⟨"E12345", "Jane", "A1", "Housing", ⟨500, 0⟩, none⟩

/-- A record with a positive amount of one thousandth, which rounds to
`0.00` at two decimals. -/
def tinyAmountRecord : DeductionRecord := ⟨"E100", "X", "A1", "Comp", ⟨1, 3⟩, none⟩

/-- A mapping-sheet row whose code cell holds the name-column placeholder
literal. -/
def crossPlaceholderRows : List (Cell × Cell) := [(Cell.str "SAP PAYCOMPONENT", Cell.str "X")]

/-- A table with six data rows whose staff ids are all too short. -/
def sixShortIdTable : RawTable :=
  [[Cell.str "H"], [Cell.na],
   [Cell.str "E1"], [Cell.str "E1"], [Cell.str "E1"],
   [Cell.str "E1"], [Cell.str "E1"], [Cell.str "E1"]]

/-- A table with one too-short staff id. -/
def oneShortIdTable : RawTable := [[Cell.str "H"], [Cell.na], [Cell.str "E1"]]

/-- A table with four negative amounts in a mapped column. -/
def fourNegativeTable : RawTable :=
  [[Cell.str "ID", Cell.str "A1"], [Cell.na, Cell.na],
   [Cell.str "E1", Cell.str "-5"], [Cell.str "E2", Cell.str "-6"],
   [Cell.str "E3", Cell.str "-7"], [Cell.str "E4", Cell.str "-8"]]

/-- A mapping with the single code `A1`. -/
def oneCodeMapping : WageMapping := fun k => if k = "A1" then some "X" else none

/-- Three records: one spelling `"Foo"`, then `"foo"` twice. -/
def caseCollisionRecords : List DeductionRecord :=
  [⟨"E1", "N", "C", "Foo", ⟨5, 0⟩, none⟩,
   ⟨"E1", "N", "C", "foo", ⟨5, 0⟩, none⟩,
   ⟨"E1", "N", "C", "foo", ⟨5, 0⟩, none⟩]

/-! ### Helper lemmas -/

theorem str_data_append (a b : String) : (a ++ b).data = a.data ++ b.data := rfl

theorem str_mk_data (s : String) : (⟨s.data⟩ : String) = s := rfl

theorem pad2_length_two (n : ℕ) (h1 : 1 ≤ n) (h2 : n ≤ 31) : (pad2 n).length = 2 := by
  interval_cases n <;> decide

theorem natStr_year_length_four (y : ℕ) (h1 : 2020 ≤ y) (h2 : y ≤ 2050) :
    (natStr y).length = 4 := by
  interval_cases y <;> decide

theorem get_days_in_month_bounds (m y : ℕ) :
    28 ≤ get_days_in_month m y ∧ get_days_in_month m y ≤ 31 := by
  unfold get_days_in_month; split_ifs <;> omega

/-! ### C4: the Gregorian month-length table -/

/-- C4: for every month in `[1, 12]` and every year, `get_days_in_month`
agrees with the Gregorian calendar, including the century and 400-year
leap exceptions. -/
theorem c4_days_in_month_gregorian (m y : ℕ) (h1 : 1 ≤ m) (h2 : m ≤ 12) :
    get_days_in_month m y = gregorianDays m y := by
  interval_cases m <;> rfl

/-- Witness for C4 at February 2024 (a leap year). -/
theorem c4_witness :
    1 ≤ 2 ∧ 2 ≤ 12 ∧ get_days_in_month 2 2024 = gregorianDays 2 2024 :=
  ⟨by decide, by decide, c4_days_in_month_gregorian 2 2024 (by decide) (by decide)⟩

/-! ### C6: the example scenario -/

/-- C6: on the example input (header `["ID","NAME","A1","A2"]`, mapping
`A1 ↦ Housing, A2 ↦ Transport`, data row `["E12345","Jane","500","0"]`),
extraction yields exactly the one Housing record with amount `500.0` (the
`A2` value `0` is dropped), rotation with September 2024 assigns
`30/09/2024`, and the produced CSV's third line is exactly
`AED,30/09/2024,Housing,E12345,500.0,`. -/
theorem c6_example_scenario :
    extract_deductions_row1 exampleTable exampleMapping = .ok [exampleRecord] ∧
    rotate_dates_descending [exampleRecord] 9 2024 =
      [{ exampleRecord with pay_date := some "30/09/2024" }] ∧
    pySplit '\n' (pyStrip (generate_csv_with_two_header_rows
        (rotate_dates_descending [exampleRecord] 9 2024))) =
      ["currency-code,pay-date,pay-component-code,user-id,value,operation",
       "Currency,Issue Date,Pay Component,User ID,Spot Bonus Amount,Operation",
       "AED,30/09/2024,Housing,E12345,500.0,"] := by
  refine ⟨rfl, by decide, by decide⟩

/-! ### Date rotation: characterization of the loop -/

theorem rotateAux_map_erase (m y D : ℕ) :
    ∀ (ds : List DeductionRecord) (tr : String × String → ℕ),
      (rotateAux m y D tr ds).map erasePayDate = ds.map erasePayDate
  | [], _ => rfl
  | r :: rs, tr => by
    simp only [rotateAux, List.map_cons, rotateAux_map_erase m y D rs]
    cases r; rfl

theorem rotateAux_pay_date_isSome (m y D : ℕ) :
    ∀ (ds : List DeductionRecord) (tr : String × String → ℕ) (r' : DeductionRecord),
      r' ∈ rotateAux m y D tr ds → r'.pay_date.isSome
  | r :: rs, tr, r', h => by
    rcases List.mem_cons.1 h with h1 | h2
    · subst h1; rfl
    · exact rotateAux_pay_date_isSome m y D rs _ r' h2

theorem rotateAux_get? (m y D : ℕ) :
    ∀ (ds : List DeductionRecord) (tr : String × String → ℕ) (i : ℕ),
      (rotateAux m y D tr ds).get? i = (ds.get? i).map fun r =>
        { r with pay_date := some (fmtDate
            (if tr (keyOf r) + countKey (ds.take i) (keyOf r) < D
             then D - (tr (keyOf r) + countKey (ds.take i) (keyOf r)) else 1) m y) }
  | [], _, _ => rfl
  | r :: rs, tr, 0 => rfl
  | r :: rs, tr, i + 1 => by
    have ih := rotateAux_get? m y D rs (fun x => if x = keyOf r then tr (keyOf r) + 1 else tr x) i
    simp only [rotateAux, List.get?_cons_succ, List.take_succ_cons]
    rw [ih]
    cases hg : rs.get? i with
    | none => rfl
    | some r' =>
      simp only [Option.map_some']
      have hcnt : (if keyOf r' = keyOf r then tr (keyOf r) + 1 else tr (keyOf r')) +
          countKey (rs.take i) (keyOf r') =
          tr (keyOf r') + countKey (r :: rs.take i) (keyOf r') := by
        unfold countKey
        rw [List.countP_cons]
        by_cases hk : keyOf r' = keyOf r
        · rw [if_pos hk, hk]; simp only [decide_eq_true_eq]; simp; omega
        · rw [if_neg hk]
          have : ¬(keyOf r = keyOf r') := fun hh => hk hh.symm
          simp [this]
      rw [hcnt]

/-! ### C10: the rotation is a pure per-record date assignment -/

/-- C10: `rotate_dates_descending` returns a list of the same length, in
the same order, with every field other than `pay_date` unchanged, and
assigns every record a `pay_date`. -/
theorem c10_rotation_frame (ds : List DeductionRecord) (m y : ℕ) :
    (rotate_dates_descending ds m y).length = ds.length ∧
    (rotate_dates_descending ds m y).map erasePayDate = ds.map erasePayDate ∧
    ∀ r ∈ rotate_dates_descending ds m y, r.pay_date.isSome := by
  refine ⟨?_, rotateAux_map_erase m y _ ds _, fun r h => rotateAux_pay_date_isSome m y _ ds _ r h⟩
  have h1 := congrArg List.length (rotateAux_map_erase m y (get_days_in_month m y) ds (fun _ => 0))
  simpa [rotate_dates_descending] using h1

/-- Witness for C10: the rotated example record carries a `pay_date`. -/
theorem c10_witness :
    ({ exampleRecord with pay_date := some "30/09/2024" } : DeductionRecord).pay_date.isSome :=
  (c10_rotation_frame [exampleRecord] 9 2024).2.2
    { exampleRecord with pay_date := some "30/09/2024" } (by decide)

/-! ### C1: the descending-day assignment -/

/-- C1: for records sharing a `(employee, component)` key, the `i`-th
occurrence (counting earlier records with the same key) is assigned day
`max 1 (D - i)` where `D = days_in_month(month, year)` — clamped at day 1,
never rolled into the prior month — and the `pay_date` string is the
zero-padded `DD/MM/YYYY` form (10 characters for the valid month and year
ranges). -/
theorem c1_date_rotation (ds : List DeductionRecord) (m y : ℕ)
    (hm1 : 1 ≤ m) (hm2 : m ≤ 12) (hy1 : 2020 ≤ y) (hy2 : y ≤ 2050)
    (i : ℕ) (r : DeductionRecord) (hr : ds.get? i = some r) :
    (rotate_dates_descending ds m y).get? i = some { r with
        pay_date := some (fmtDate
          (max 1 (get_days_in_month m y - countKey (ds.take i) (keyOf r))) m y) } ∧
    (fmtDate (max 1 (get_days_in_month m y - countKey (ds.take i) (keyOf r))) m y).length
      = 10 := by
  have hD := get_days_in_month_bounds m y
  constructor
  · rw [rotate_dates_descending, rotateAux_get? m y _ ds (fun _ => 0) i, hr]
    have harith : (if 0 + countKey (ds.take i) (keyOf r) < get_days_in_month m y
        then get_days_in_month m y - (0 + countKey (ds.take i) (keyOf r))
        else 1) = max 1 (get_days_in_month m y - countKey (ds.take i) (keyOf r)) := by
      split <;> omega
    rw [Option.map_some', harith]
  · have hday1 : 1 ≤ max 1 (get_days_in_month m y - countKey (ds.take i) (keyOf r)) :=
      Nat.le_max_left _ _
    have hday31 : max 1 (get_days_in_month m y - countKey (ds.take i) (keyOf r)) ≤ 31 := by
      have := Nat.sub_le (get_days_in_month m y) (countKey (ds.take i) (keyOf r))
      omega
    have hm31 : m ≤ 31 := by omega
    simp only [fmtDate, String.length_append]
    rw [pad2_length_two _ hday1 hday31, pad2_length_two m hm1 hm31,
      natStr_year_length_four y hy1 hy2]
    rfl

/-- Witness for C1: two records with the same key in September 2024; the
second occurrence gets day 29. -/
theorem c1_witness :
    (rotate_dates_descending [exampleRecord, exampleRecord] 9 2024).get? 1 =
      some { exampleRecord with
        pay_date := some (fmtDate (max 1 (get_days_in_month 9 2024 -
          countKey ([exampleRecord, exampleRecord].take 1) (keyOf exampleRecord))) 9 2024) } ∧
    (fmtDate (max 1 (get_days_in_month 9 2024 -
      countKey ([exampleRecord, exampleRecord].take 1) (keyOf exampleRecord))) 9 2024).length
      = 10 :=
  c1_date_rotation [exampleRecord, exampleRecord] 9 2024 (by decide) (by decide)
    (by decide) (by decide) 1 exampleRecord (by decide)

/-! ### C5: the wage-mapping load -/

theorem wageMappingLastEntry_cons (r : Cell × Cell) (rest : List (Cell × Cell)) (k : String) :
    wageMappingLastEntry (r :: rest) k =
      (wageMappingLastEntry rest k).or (wageRowEntry r k) := by
  unfold wageMappingLastEntry
  rw [List.reverse_cons, List.findSome?_append]
  cases h : wageRowEntry r k <;> simp [List.findSome?_cons, h]

theorem wageRowStep_lookup (m : WageMapping) (r : Cell × Cell) (k : String) :
    wageRowStep m r k = (wageRowEntry r k).or (m k) := by
  simp only [wageRowStep, wageRowEntry, mapUpd]
  by_cases hna : r.1 ≠ Cell.na ∧ r.2 ≠ Cell.na
  · simp only [if_pos hna]
    by_cases hph : pyUpper (pyStrip (pyStr r.1)) = "RAMCO CODE" ∨
        pyUpper (pyStrip (pyStr r.1)) = "NOT AVAILABLE" ∨
        pyStrip (pyStr r.2) = "SAP PAYCOMPONENT" ∨ pyStrip (pyStr r.2) = "NOT AVAILABLE"
    · have hcond : ¬(pyUpper (pyStrip (pyStr r.1)) ∉ (["RAMCO CODE", "NOT AVAILABLE"] : List String) ∧
          pyStrip (pyStr r.2) ∉ (["SAP PAYCOMPONENT", "NOT AVAILABLE"] : List String)) := by
        simp only [List.mem_cons, List.not_mem_nil, or_false]
        tauto
      simp only [if_neg hcond, if_pos hph, Option.none_or]
    · have hcond : pyUpper (pyStrip (pyStr r.1)) ∉ (["RAMCO CODE", "NOT AVAILABLE"] : List String) ∧
          pyStrip (pyStr r.2) ∉ (["SAP PAYCOMPONENT", "NOT AVAILABLE"] : List String) := by
        simp only [List.mem_cons, List.not_mem_nil, or_false]
        tauto
      simp only [if_pos hcond, if_neg hph]
      by_cases hk : pyUpper (pyStrip (pyStr r.1)) = k
      · rw [hk]; simp [mapUpd]
      · have hk2 : ¬(k = pyUpper (pyStrip (pyStr r.1))) := fun h => hk h.symm
        simp only [mapUpd, if_neg hk, if_neg hk2, Option.none_or]
  · simp only [if_neg hna, Option.none_or]

theorem load_wage_mapping_foldl_lookup :
    ∀ (rows : List (Cell × Cell)) (m : WageMapping) (k : String),
      (rows.foldl wageRowStep m) k = (wageMappingLastEntry rows k).or (m k)
  | [], m, k => by simp [wageMappingLastEntry]
  | r :: rest, m, k => by
    rw [List.foldl_cons, load_wage_mapping_foldl_lookup rest (wageRowStep m r) k,
      wageRowStep_lookup, wageMappingLastEntry_cons, Option.or_assoc]

/-- C5 (amended): `load_wage_mapping` behaves, key by key, exactly as the
last-wins lookup built from the per-row rule: both cells present (not NaN),
uppercase-trim the code and trim the name, skip the row when the code is
`"RAMCO CODE"` or `"NOT AVAILABLE"` or the name is `"SAP PAYCOMPONENT"` or
`"NOT AVAILABLE"` (the code is not tested against `"SAP PAYCOMPONENT"`, nor
the name against `"RAMCO CODE"`), and otherwise insert, a later duplicate
code overwriting an earlier one; rows with a missing column never become
entries. -/
theorem c5_wage_mapping_load (rows : List (Cell × Cell)) (k : String) :
    load_wage_mapping rows k = wageMappingLastEntry rows k := by
  rw [load_wage_mapping, load_wage_mapping_foldl_lookup rows (fun _ => none) k, Option.or_none]

/-- C5 counterexample: a row whose code cell holds the name-column
placeholder `"SAP PAYCOMPONENT"` is NOT skipped — it becomes a mapping
entry, contradicting the claim that a row is skipped whenever either value
equals one of the three placeholder literals. -/
theorem c5_counterexample :
    load_wage_mapping crossPlaceholderRows "SAP PAYCOMPONENT" = some "X" := by decide

/-! ### C3: the extractor only emits strictly positive amounts -/

/-- C3: every record emitted by `extract_deductions_row1` has a strictly
positive amount; cells that parse to zero or a negative number, and cells
that do not parse as a number, never produce a record. -/
theorem c3_extraction_positive (t : RawTable) (wm : WageMapping)
    (ds : List DeductionRecord) (h : extract_deductions_row1 t wm = .ok ds) :
    ∀ r ∈ ds, pyZero < r.amount := by
  intro r hr
  by_cases hc : deductionCols t wm = []
  · simp only [extract_deductions_row1, hc] at h
    simp at h
  · simp only [extract_deductions_row1] at h
    rw [if_neg hc, Except.ok.injEq] at h
    subst h
    rw [List.mem_flatMap] at hr
    obtain ⟨idx, -, hmem⟩ := hr
    by_cases hb : isBlankId (pyStrip (pyStr (cellAt t idx 0))) = true
    · rw [if_pos hb] at hmem
      exact absurd hmem (List.not_mem_nil r)
    · rw [if_neg hb] at hmem
      rw [List.mem_filterMap] at hmem
      obtain ⟨col, -, heq⟩ := hmem
      cases hcf : cellFloat (cellAt t idx col.1) with
      | error e => rw [hcf] at heq; exact absurd heq (by simp)
      | ok o =>
        cases o with
        | none => rw [hcf] at heq; exact absurd heq (by simp)
        | some amount =>
          rw [hcf] at heq
          dsimp only at heq
          by_cases hpos : pyZero < amount
          · rw [if_pos hpos, Option.some.injEq] at heq
            subst heq
            exact hpos
          · rw [if_neg hpos] at heq
            exact absurd heq (by simp)

/-- Witness for C3 on the example table. -/
theorem c3_witness : pyZero < exampleRecord.amount :=
  c3_extraction_positive exampleTable exampleMapping [exampleRecord] rfl
    exampleRecord (by decide)

/-! ### C9: the component-consistency warnings -/

theorem check8Aux_eq_spec :
    ∀ (ds : List DeductionRecord) (seen : List DeductionRecord)
      (m : String → Option String),
      (∀ u, m u = (seen.find? fun e => pyUpper e.component == u).map (·.component)) →
      check8Aux m ds = componentWarningsFrom seen ds
  | [], _, _, _ => rfl
  | d :: ds, seen, m, hinv => by
    rw [check8Aux, componentWarningsFrom]
    have hd := hinv (pyUpper d.component)
    cases hm : m (pyUpper d.component) with
    | none =>
      rw [hm] at hd
      have hfind : (seen.find? fun e => pyUpper e.component == pyUpper d.component) = none := by
        cases hf : seen.find? fun e => pyUpper e.component == pyUpper d.component with
        | none => rfl
        | some e => rw [hf] at hd; exact absurd hd (by simp)
      rw [hfind]
      simp only [List.nil_append]
      refine check8Aux_eq_spec ds (seen ++ [d]) _ fun u => ?_
      rw [List.find?_append]
      by_cases hu : u = pyUpper d.component
      · subst hu
        rw [hfind]
        simp
      · have hne : ¬(u = pyUpper d.component) := hu
        rw [if_neg hne]
        have hlast : ([d].find? fun e => pyUpper e.component == u) = none := by
          simp only [List.find?_cons, List.find?_nil]
          have : (pyUpper d.component == u) = false := by
            simp only [beq_eq_false_iff_ne, ne_eq]
            exact fun hh => hu hh.symm
          rw [this]
        rw [hlast, Option.or_none]
        exact hinv u
    | some c =>
      rw [hm] at hd
      have hfind : ∃ e, (seen.find? fun e => pyUpper e.component == pyUpper d.component) = some e
          ∧ e.component = c := by
        cases hf : seen.find? fun e => pyUpper e.component == pyUpper d.component with
        | none => rw [hf] at hd; exact absurd hd (by simp)
        | some e =>
          rw [hf] at hd
          exact ⟨e, rfl, by simpa using hd.symm⟩
      obtain ⟨e, hfind, hec⟩ := hfind
      rw [hfind]
      dsimp only
      rw [hec]
      have hrest : check8Aux m ds = componentWarningsFrom (seen ++ [d]) ds := by
        refine check8Aux_eq_spec ds (seen ++ [d]) m fun u => ?_
        rw [List.find?_append]
        cases hf : seen.find? fun e2 => pyUpper e2.component == u with
        | some e2 => rw [Option.or_some]; rw [← hf]; exact hinv u
        | none =>
          rw [Option.none_or]
          have hu : ¬(u = pyUpper d.component) := by
            intro hu
            subst hu
            rw [hf] at hfind
            exact absurd hfind (by simp)
          have hlast : ([d].find? fun e2 => pyUpper e2.component == u) = none := by
            simp only [List.find?_cons, List.find?_nil]
            have : (pyUpper d.component == u) = false := by
              simp only [beq_eq_false_iff_ne, ne_eq]
              exact fun hh => hu hh.symm
            rw [this]
          rw [hlast]
          rw [hinv u, hf]
      by_cases hcd : c ≠ d.component
      · rw [if_pos hcd, if_pos hcd, hrest]
        rfl
      · rw [if_neg hcd, if_neg hcd, hrest]
        rfl

/-- C9 (amended): `check_8` emits one warning per RECORD whose uppercase
component collides with an earlier record's and whose original spelling
differs from the first-seen spelling for that uppercase form — so a
colliding pair occurring with multiplicity warns once per offending
occurrence, not once per pair. -/
theorem c9_component_consistency (ds : List DeductionRecord) :
    check_8_component_consistency ds = componentWarningsSpec ds :=
  check8Aux_eq_spec ds [] (fun _ => none) (fun _ => rfl)

/-- C9 counterexample: with spellings `["Foo", "foo", "foo"]` there is one
colliding pair of distinct spellings, but `check_8` warns twice — once per
offending occurrence — refuting "exactly one warning per detected pair". -/
theorem c9_counterexample :
    check_8_component_consistency caseCollisionRecords =
      [inconsistencyMsg "Foo" "foo", inconsistencyMsg "Foo" "foo"] ∧
    (check_8_component_consistency caseCollisionRecords).length ≠ 1 := by
  refine ⟨by decide, by decide⟩

/-! ### C7: the staff-id warning cap -/

theorem listStarts_self : ∀ l : List Char, listStarts l l = true
  | [] => rfl
  | x :: xs => by simp [listStarts, listStarts_self xs]

theorem listHas_self (l : List Char) : listHas l l = true := by
  cases l with
  | nil => rfl
  | cons x xs => rw [listHas, listStarts_self]; rfl

theorem listHas_append_left (n : List Char) :
    ∀ (a b : List Char), listHas n b = true → listHas n (a ++ b) = true
  | [], _, h => h
  | x :: xs, b, h => by
    rw [List.cons_append, listHas, listHas_append_left n xs b h, Bool.or_true]

theorem listHas_of_suffix (pre n : List Char) : listHas n (pre ++ n) = true :=
  listHas_append_left n pre n (listHas_self n)

theorem shortMsg_has_too_short (t : RawTable) (idx : ℕ) :
    listHas "too short".data
      ("Row " ++ natStr (idx + 1) ++ ": ID \x27" ++ staffIdOf t idx
        ++ "\x27 seems too short").data = true := by
  rw [str_data_append]
  apply listHas_append_left
  have hsplit : "\x27 seems too short".data = "\x27 seems ".data ++ "too short".data := by
    decide
  rw [hsplit]
  exact listHas_of_suffix _ _

/-- C7 (amended): whenever some data row has a blank or too-short staff
id, `check_2`'s warning list consists of the blank-count summary (exactly
when a blank exists) plus the individual per-row messages — but the
individual messages appear ONLY when the number `n` of flagged rows is at
most 5, in which case all `n` appear; for `n > 5` no individual message is
emitted at all (the `[:5]` slice is dead code behind the `≤ 5` guard). -/
theorem c7_staff_warning_cap (t : RawTable) (h : 0 < staffInvalidCount t) :
    ((check_2_staff_id_validation t).2.1).length =
      (if 0 < staffBlankCount t then 1 else 0) +
      (if staffInvalidCount t ≤ 5 then staffInvalidCount t else 0) := by
  have hlen : ((dataRowIdx t).filterMap (staffInvalidMsg t)).length = staffInvalidCount t := by
    rw [List.length_filterMap_eq_countP, staffInvalidCount]
    apply List.countP_congr
    intro idx _
    simp only [staffInvalidMsg, staffInvalidPred]
    by_cases hb : isBlankId (staffIdOf t idx) = true
    · simp [hb]
    · by_cases hs : (staffIdOf t idx).length < 5 <;> simp [hb, hs]
  have htotal : 0 < (dataRowIdx t).countP
        (fun idx =>
          !isBlankId (staffIdOf t idx) && !decide ((staffIdOf t idx).length < 5)) +
      (dataRowIdx t).countP (fun idx => isBlankId (staffIdOf t idx)) +
      ((dataRowIdx t).filterMap (staffInvalidMsg t)).countP
        (fun x => listHas "too short".data x.data) := by
    obtain ⟨idx, hidx, hpred⟩ := List.countP_pos_iff.mp h
    rw [staffInvalidPred, Bool.or_eq_true] at hpred
    cases hb : isBlankId (staffIdOf t idx) with
    | true =>
      have : 0 < (dataRowIdx t).countP (fun idx => isBlankId (staffIdOf t idx)) :=
        List.countP_pos_iff.mpr ⟨idx, hidx, hb⟩
      omega
    | false =>
      have hs : (staffIdOf t idx).length < 5 := by
        rcases hpred with h1 | h1
        · rw [hb] at h1; exact absurd h1 (by simp)
        · simpa using h1
      have hmem : ("Row " ++ natStr (idx + 1) ++ ": ID \x27" ++ staffIdOf t idx
            ++ "\x27 seems too short") ∈ (dataRowIdx t).filterMap (staffInvalidMsg t) := by
        refine List.mem_filterMap.mpr ⟨idx, hidx, ?_⟩
        simp only [staffInvalidMsg]
        rw [if_neg (by simp [hb]), if_pos hs]
      have : 0 < ((dataRowIdx t).filterMap (staffInvalidMsg t)).countP
          (fun x => listHas "too short".data x.data) :=
        List.countP_pos_iff.mpr ⟨_, hmem, shortMsg_has_too_short t idx⟩
      omega
  simp only [check_2_staff_id_validation]
  rw [List.length_append]
  have hblankCond : ((dataRowIdx t).countP
        (fun idx =>
          !isBlankId (staffIdOf t idx) && !decide ((staffIdOf t idx).length < 5)) +
      (dataRowIdx t).countP (fun idx => isBlankId (staffIdOf t idx)) +
      ((dataRowIdx t).filterMap (staffInvalidMsg t)).countP
        (fun x => listHas "too short".data x.data) ≠ 0) := by omega
  have hfirst : (if ((dataRowIdx t).countP
          (fun idx =>
            !isBlankId (staffIdOf t idx) && !decide ((staffIdOf t idx).length < 5)) +
        (dataRowIdx t).countP (fun idx => isBlankId (staffIdOf t idx)) +
        ((dataRowIdx t).filterMap (staffInvalidMsg t)).countP
          (fun x => listHas "too short".data x.data) ≠ 0) ∧
        0 < (dataRowIdx t).countP (fun idx => isBlankId (staffIdOf t idx)) then
      ["⚠️ Found " ++ natStr ((dataRowIdx t).countP
          (fun idx => isBlankId (staffIdOf t idx))) ++ " rows with blank Staff IDs"]
      else ([] : List String)).length = if 0 < staffBlankCount t then 1 else 0 := by
    rw [staffBlankCount]
    by_cases hb : 0 < (dataRowIdx t).countP (fun idx => isBlankId (staffIdOf t idx))
    · rw [if_pos ⟨hblankCond, hb⟩, if_pos hb]
      rfl
    · rw [if_neg (fun hc => hb hc.2), if_neg hb]
      rfl
  have hsecond : (if 0 < ((dataRowIdx t).filterMap (staffInvalidMsg t)).length ∧
        ((dataRowIdx t).filterMap (staffInvalidMsg t)).length ≤ 5 then
      ((dataRowIdx t).filterMap (staffInvalidMsg t)).map (fun e => "⚠️ " ++ e)
      else ([] : List String)).length =
      if staffInvalidCount t ≤ 5 then staffInvalidCount t else 0 := by
    by_cases h5 : staffInvalidCount t ≤ 5
    · rw [if_pos ⟨by rw [hlen]; exact h, by rw [hlen]; exact h5⟩, if_pos h5,
        List.length_map, hlen]
    · rw [if_neg (fun hc => h5 (hlen ▸ hc.2)), if_neg h5]
      rfl
  rw [hfirst, hsecond]

/-- Witness for C7 on a table with one too-short staff id. -/
theorem c7_witness :
    ((check_2_staff_id_validation oneShortIdTable).2.1).length =
      (if 0 < staffBlankCount oneShortIdTable then 1 else 0) +
      (if staffInvalidCount oneShortIdTable ≤ 5 then staffInvalidCount oneShortIdTable
       else 0) :=
  c7_staff_warning_cap oneShortIdTable (by decide)

/-- C7 counterexample: six too-short staff ids, yet the warning list is
EMPTY — not the `min(6, 5) = 5` individual messages the claim requires
(the code only emits individual messages when there are at most five). -/
theorem c7_counterexample :
    staffInvalidCount sixShortIdTable = 6 ∧
    (check_2_staff_id_validation sixShortIdTable).2.1 = [] := by
  refine ⟨by decide, by decide⟩

/-! ### C8: the amount-range validator truncates its returned lists -/

theorem check4_inner_foldl (t : RawTable) (c : ℕ) :
    ∀ (rows : List ℕ) (acc : List String × List String),
      rows.foldl (check4RowStep t c) acc =
        (acc.1 ++ rows.filterMap (negEntry t c), acc.2 ++ rows.filterMap (highEntry t c))
  | [], acc => by simp
  | r :: rest, acc => by
    rw [List.foldl_cons, check4_inner_foldl t c rest]
    rw [List.filterMap_cons, List.filterMap_cons]
    unfold check4RowStep negEntry highEntry
    cases hcf : cellFloat (cellAt t r c) with
    | error e => simp
    | ok o =>
      cases o with
      | none => simp
      | some d =>
        by_cases hneg : d < pyZero
        · simp [hneg]
        · by_cases hhigh : pyTenThousand < d <;> simp [hneg, hhigh]

theorem check4_outer_foldl (t : RawTable) (wm : WageMapping) :
    ∀ (cols : List ℕ) (acc : List String × List String),
      cols.foldl (check4ColStep t wm) acc =
        (acc.1 ++ cols.flatMap (fun c =>
            if (wm (headerValOf t c)).isSome then (dataRowIdx t).filterMap (negEntry t c)
            else []),
         acc.2 ++ cols.flatMap (fun c =>
            if (wm (headerValOf t c)).isSome then (dataRowIdx t).filterMap (highEntry t c)
            else []))
  | [], acc => by simp
  | c :: rest, acc => by
    rw [List.foldl_cons, check4_outer_foldl t wm rest]
    rw [List.flatMap_cons, List.flatMap_cons]
    unfold check4ColStep
    by_cases hm : (wm (headerValOf t c)).isSome
    · rw [if_pos hm, if_pos hm, if_pos hm, check4_inner_foldl t c]
      simp
    · rw [if_neg hm, if_neg hm, if_neg hm]
      simp

theorem check4Scan_eq (t : RawTable) (wm : WageMapping) :
    check4Scan t wm = (negativeAmountList t wm, suspiciousAmountList t wm) := by
  rw [check4Scan, check4_outer_foldl t wm]
  rw [negativeAmountList, suspiciousAmountList]
  simp

/-- C8 (amended): `check_4` DOES truncate the lists it returns: the error
list is the first three negative-amount messages plus, when more exist, a
single rollup line carrying the remaining count — not all `n` violations —
and the warning list is capped the same way; the further `[:3]` at the
display layer is a second, separate cap. -/
theorem c8_check4_truncation (t : RawTable) (wm : WageMapping) :
    (check_4_amount_range_validation t wm).1 =
      ((negativeAmountList t wm).take 3).map (fun x => "❌ " ++ x) ++
      (if 3 < (negativeAmountList t wm).length then
        ["❌ ... and " ++ natStr ((negativeAmountList t wm).length - 3) ++
          " more negative amounts"]
       else []) ∧
    (check_4_amount_range_validation t wm).2 =
      ((suspiciousAmountList t wm).take 3).map
        (fun a => "⚠️ Unusual: " ++ a ++ " AED (> 10000)") ++
      (if 3 < (suspiciousAmountList t wm).length then
        ["⚠️ ... and " ++ natStr ((suspiciousAmountList t wm).length - 3) ++
          " more high amounts"]
       else []) := by
  unfold check_4_amount_range_validation
  rw [check4Scan_eq]
  exact ⟨rfl, rfl⟩

/-- C8 counterexample: four negative cells in a mapped column; the
returned error list never identifies the fourth violation (neither its
formatted form nor its raw message appears), refuting the claim that the
returned list is untruncated. -/
theorem c8_counterexample :
    (negativeAmountList fourNegativeTable oneCodeMapping).length = 4 ∧
    "❌ Row 6, Emp E4: Negative amount -8.0" ∉
      (check_4_amount_range_validation fourNegativeTable oneCodeMapping).1 ∧
    "Row 6, Emp E4: Negative amount -8.0" ∉
      (check_4_amount_range_validation fourNegativeTable oneCodeMapping).1 := by
  refine ⟨by decide, by decide, by decide⟩

/-! ### C2: digit-string lemmas -/

theorem digitVal_digitChar10 {d : ℕ} (h : d < 10) : digitVal (digitChar10 d) = d := by
  interval_cases d <;> decide

theorem isDigitC_digitChar10 {d : ℕ} (h : d < 10) : isDigitC (digitChar10 d) = true := by
  interval_cases d <;> decide

theorem natChars_all_digits :
    ∀ (fuel n : ℕ) (c : Char), c ∈ natChars fuel n → isDigitC c = true
  | fuel + 1, n, c, h => by
    rw [natChars] at h
    by_cases hn : n = 0
    · rw [if_pos hn] at h
      exact absurd h (List.not_mem_nil c)
    · rw [if_neg hn] at h
      rcases List.mem_append.mp h with h1 | h2
      · exact natChars_all_digits fuel (n / 10) c h1
      · rw [List.mem_singleton.mp h2]
        exact isDigitC_digitChar10 (Nat.mod_lt n (by omega))

theorem padChars_all_digits :
    ∀ (w v : ℕ) (c : Char), c ∈ padChars w v → isDigitC c = true
  | w + 1, v, c, h => by
    rw [padChars] at h
    rcases List.mem_append.mp h with h1 | h2
    · exact padChars_all_digits w (v / 10) c h1
    · rw [List.mem_singleton.mp h2]
      exact isDigitC_digitChar10 (Nat.mod_lt v (by omega))

theorem natOfDigits_from_acc :
    ∀ (l : List Char) (a : ℕ),
      l.foldl (fun a c => a * 10 + digitVal c) a = a * 10 ^ l.length + natOfDigits l
  | [], a => by simp [natOfDigits]
  | c :: l, a => by
    rw [List.foldl_cons, natOfDigits_from_acc l (a * 10 + digitVal c)]
    have hc : natOfDigits (c :: l) = digitVal c * 10 ^ l.length + natOfDigits l := by
      rw [natOfDigits, List.foldl_cons]
      have := natOfDigits_from_acc l (0 * 10 + digitVal c)
      rw [this]
      ring_nf
    rw [hc, List.length_cons]
    ring

theorem natOfDigits_append (a b : List Char) :
    natOfDigits (a ++ b) = natOfDigits a * 10 ^ b.length + natOfDigits b := by
  rw [natOfDigits, List.foldl_append, ← natOfDigits, natOfDigits_from_acc]

theorem natOfDigits_snoc (l : List Char) (c : Char) :
    natOfDigits (l ++ [c]) = natOfDigits l * 10 + digitVal c := by
  rw [natOfDigits_append]
  simp [natOfDigits, digitVal]

theorem natOfDigits_natChars :
    ∀ (fuel n : ℕ), n ≤ fuel → natOfDigits (natChars fuel n) = n
  | 0, n, h => by
    have : n = 0 := by omega
    subst this
    rfl
  | fuel + 1, n, h => by
    rw [natChars]
    by_cases hn : n = 0
    · rw [if_pos hn, hn]
      rfl
    · rw [if_neg hn, natOfDigits_snoc,
        natOfDigits_natChars fuel (n / 10) (by omega),
        digitVal_digitChar10 (Nat.mod_lt n (by omega))]
      omega

theorem natOfDigits_padChars :
    ∀ (w v : ℕ), v < 10 ^ w → natOfDigits (padChars w v) = v
  | 0, v, h => by
    have : v = 0 := by simpa using h
    subst this
    rfl
  | w + 1, v, h => by
    rw [padChars, natOfDigits_snoc,
      natOfDigits_padChars w (v / 10) (by
        have := Nat.pow_succ 10 w
        omega),
      digitVal_digitChar10 (Nat.mod_lt v (by omega))]
    omega

theorem natStr_data_digits (n : ℕ) (c : Char) (h : c ∈ (natStr n).data) :
    isDigitC c = true := by
  rw [natStr] at h
  by_cases hn : n = 0
  · rw [if_pos hn] at h
    have : c = '0' := by simpa using h
    rw [this]
    decide
  · rw [if_neg hn] at h
    exact natChars_all_digits n n c h

theorem natStr_data_ne_nil (n : ℕ) : (natStr n).data ≠ [] := by
  rw [natStr]
  by_cases hn : n = 0
  · rw [if_pos hn]
    decide
  · rw [if_neg hn]
    show natChars n n ≠ []
    cases n with
    | zero => exact absurd rfl hn
    | succ k =>
      rw [natChars, if_neg hn]
      simp

theorem natOfDigits_natStr (n : ℕ) : natOfDigits (natStr n).data = n := by
  rw [natStr]
  by_cases hn : n = 0
  · rw [if_pos hn, hn]
    decide
  · rw [if_neg hn]
    exact natOfDigits_natChars n n le_rfl

theorem ne_of_digit_classes {c x : Char} (h : isDigitC c = true) (hx : isDigitC x = false) :
    c ≠ x := by
  intro he
  rw [he, hx] at h
  exact Bool.noConfusion h

theorem not_space_of_digit {c : Char} (h : isDigitC c = true) : isPySpace c = false := by
  simp only [isDigitC, Bool.and_eq_true, decide_eq_true_eq] at h
  simp only [isPySpace, Bool.or_eq_false_iff, decide_eq_false_iff_not]
  omega

theorem pyLowerChar_digit {c : Char} (h : isDigitC c = true) : pyLowerChar c = c := by
  simp only [isDigitC, Bool.and_eq_true, decide_eq_true_eq] at h
  rw [pyLowerChar, if_neg (by omega)]

/-! ### C2: strip and split lemmas -/

theorem dropWhile_eq_self_of (p : Char → Bool) :
    ∀ (l : List Char), (∀ c ∈ l, p c = false) → l.dropWhile p = l
  | [], _ => rfl
  | x :: xs, h => by
    rw [List.dropWhile_cons, h x (List.mem_cons_self x xs)]
    simp

theorem trimChars_eq_self (l : List Char) (h : ∀ c ∈ l, isPySpace c = false) :
    trimChars l = l := by
  rw [trimChars, dropWhile_eq_self_of _ l h,
    dropWhile_eq_self_of _ l.reverse (fun c hc => h c (List.mem_reverse.mp hc)),
    List.reverse_reverse]

theorem trimChars_append_newline (x : Char) (xs : List Char)
    (hx : isPySpace x = false)
    (hlast : ∀ d, (x :: xs).getLast? = some d → isPySpace d = false) :
    trimChars ((x :: xs) ++ ['\n']) = x :: xs := by
  rw [trimChars]
  rw [List.cons_append, List.dropWhile_cons, hx]
  simp only [Bool.false_eq_true, if_false]
  rw [show (x :: (xs ++ ['\n'])).reverse = '\n' :: (x :: xs).reverse by simp]
  rw [List.dropWhile_cons]
  rw [show isPySpace '\n' = true from rfl]
  simp only [if_true]
  cases hR : (x :: xs).reverse with
  | nil => exact absurd hR (by simp)
  | cons d R' =>
    have hd : (x :: xs).getLast? = some d := by
      rw [List.getLast?_eq_head?_reverse, hR]
      rfl
    rw [List.dropWhile_cons, hlast d hd]
    simp only [Bool.false_eq_true, if_false]
    rw [← hR, List.reverse_reverse]

theorem splitChar_ne_nil (c : Char) : ∀ (l : List Char), splitChar c l ≠ []
  | [] => by rw [splitChar]; simp
  | x :: xs => by
    rw [splitChar]
    cases h : splitChar c xs with
    | nil => simp
    | cons y ys =>
      by_cases hx : x = c <;> simp [hx]

theorem splitChar_no_sep (c : Char) :
    ∀ (l : List Char), (∀ x ∈ l, x ≠ c) → splitChar c l = [l]
  | [], _ => rfl
  | x :: xs, h => by
    rw [splitChar, splitChar_no_sep c xs (fun z hz => h z (List.mem_cons_of_mem x hz))]
    dsimp only
    rw [if_neg (h x (List.mem_cons_self x xs))]

theorem splitChar_append_cons (c : Char) :
    ∀ (a rest : List Char), (∀ x ∈ a, x ≠ c) →
      splitChar c (a ++ c :: rest) = a :: splitChar c rest
  | [], rest, _ => by
    rw [List.nil_append, splitChar]
    cases h : splitChar c rest with
    | nil => exact absurd h (splitChar_ne_nil c rest)
    | cons y ys =>
      dsimp only
      rw [if_pos rfl]
  | x :: a, rest, h => by
    rw [List.cons_append, splitChar,
      splitChar_append_cons c a rest (fun z hz => h z (List.mem_cons_of_mem x hz))]
    dsimp only
    rw [if_neg (h x (List.mem_cons_self x a))]

/-- `x₁ ++ c :: x₂ ++ c :: … ++ c :: xₙ`, the shape of a separator-joined
buffer with its final separator removed. -/
def interSep (c : Char) : List (List Char) → List Char
  | [] => []
  | [x] => x
  | x :: y :: ys => x ++ c :: interSep c (y :: ys)

theorem splitChar_interSep (c : Char) :
    ∀ (L : List (List Char)), L ≠ [] → (∀ l ∈ L, ∀ x ∈ l, x ≠ c) →
      splitChar c (interSep c L) = L
  | [], h, _ => absurd rfl h
  | [x], _, hL => by
    rw [interSep, splitChar_no_sep c x (hL x (List.mem_singleton_self x))]
  | x :: y :: ys, _, hL => by
    rw [interSep,
      splitChar_append_cons c x _ (hL x (List.mem_cons_self x _)),
      splitChar_interSep c (y :: ys) (by simp)
        (fun l hl => hL l (List.mem_cons_of_mem x hl))]

theorem interSep_getLast? (c : Char) (q : Char) :
    ∀ (L : List (List Char)), L ≠ [] → (∀ l ∈ L, l.getLast? = some q) →
      (interSep c L).getLast? = some q
  | [], h, _ => absurd rfl h
  | [x], _, hL => by rw [interSep]; exact hL x (List.mem_singleton_self x)
  | x :: y :: ys, _, hL => by
    rw [interSep]
    have htail := interSep_getLast? c q (y :: ys) (by simp)
      (fun l hl => hL l (List.mem_cons_of_mem x hl))
    rw [List.getLast?_append_cons]
    cases hI : interSep c (y :: ys) with
    | nil => rw [hI] at htail; exact absurd htail (by simp)
    | cons z zs =>
      rw [List.getLast?_cons_cons, ← hI]
      exact htail

theorem strConcat_lines_data :
    ∀ (bs : List String), bs ≠ [] →
      (strConcat (bs.map fun b => b ++ "\n")).data =
        interSep '\n' (bs.map String.data) ++ ['\n']
  | [], h => absurd rfl h
  | [b], _ => by
    show ((b ++ "\n") ++ "").data = interSep '\n' [b.data] ++ ['\n']
    show ((b ++ "\n") ++ "").data = b.data ++ ['\n']
    simp [str_data_append]
  | b :: b2 :: bs, _ => by
    show ((b ++ "\n") ++ strConcat ((b2 :: bs).map fun x => x ++ "\n")).data =
      interSep '\n' (b.data :: (b2 :: bs).map String.data) ++ ['\n']
    rw [str_data_append, str_data_append,
      strConcat_lines_data (b2 :: bs) (by simp), List.map_cons, interSep]
    simp

/-! ### C2: parsing back a rendered amount -/

theorem str_eq_of_data {a b : String} (h : a.data = b.data) : a = b := by
  cases a
  cases b
  exact congrArg String.mk h

theorem padChars_length : ∀ (w v : ℕ), (padChars w v).length = w
  | 0, _ => rfl
  | w + 1, v => by
    rw [padChars, List.length_append, padChars_length w (v / 10)]
    rfl

theorem parseFloatPy_digit_parts (i0 : Char) (ip fr : List Char)
    (hd0 : isDigitC i0 = true)
    (hip : ∀ c ∈ ip, isDigitC c = true) (hfr : ∀ c ∈ fr, isDigitC c = true) :
    parseFloatPy ⟨(i0 :: ip) ++ '.' :: fr⟩ =
      .ok (some ⟨Int.ofNat (natOfDigits ((i0 :: ip) ++ fr)), fr.length⟩) := by
  have hallns : ∀ c ∈ (i0 :: ip) ++ '.' :: fr, isPySpace c = false := by
    intro c hc
    rcases List.mem_append.mp hc with h1 | h2
    · rcases List.mem_cons.mp h1 with h3 | h4
      · subst h3; exact not_space_of_digit hd0
      · exact not_space_of_digit (hip c h4)
    · rcases List.mem_cons.mp h2 with h3 | h4
      · subst h3; decide
      · exact not_space_of_digit (hfr c h4)
  have htrim : trimChars (String.data ⟨(i0 :: ip) ++ '.' :: fr⟩) = (i0 :: ip) ++ '.' :: fr :=
    trimChars_eq_self _ hallns
  have hh : ((i0 :: ip) ++ '.' :: fr).head? = some i0 := rfl
  have hsign : ¬(((i0 :: ip) ++ '.' :: fr).head? = some '-' ∨
      ((i0 :: ip) ++ '.' :: fr).head? = some '+') := by
    rw [hh]
    rintro (h | h) <;>
      exact (ne_of_digit_classes hd0 (by decide)) (Option.some.inj h)
  have hnegf : decide (((i0 :: ip) ++ '.' :: fr).head? = some '-') = false := by
    rw [decide_eq_false_iff_not]
    intro h
    exact hsign (Or.inl h)
  have hnan : ¬(((i0 :: ip) ++ '.' :: fr).map pyLowerChar = "nan".data) := by
    intro he
    rw [List.cons_append, List.map_cons,
      show "nan".data = 'n' :: ['a', 'n'] from rfl] at he
    have hinj := (List.cons.injEq _ _ _ _).mp he
    rw [pyLowerChar_digit hd0] at hinj
    exact (ne_of_digit_classes hd0 (by decide)) hinj.1
  have hsplit : splitChar '.' ((i0 :: ip) ++ '.' :: fr) = (i0 :: ip) :: [fr] := by
    rw [splitChar_append_cons '.' (i0 :: ip) fr (by
        intro z hz
        rcases List.mem_cons.mp hz with h3 | h4
        · subst h3; exact ne_of_digit_classes hd0 (by decide)
        · exact ne_of_digit_classes (hip z h4) (by decide)),
      splitChar_no_sep '.' fr (fun z hz => ne_of_digit_classes (hfr z hz) (by decide))]
  have hcond : (i0 :: ip) ++ fr ≠ [] ∧ ((i0 :: ip).all isDigitC = true) ∧
      (fr.all isDigitC = true) := by
    refine ⟨by simp, List.all_eq_true.mpr ?_, List.all_eq_true.mpr hfr⟩
    intro z hz
    rcases List.mem_cons.mp hz with h3 | h4
    · subst h3; exact hd0
    · exact hip z h4
  simp only [parseFloatPy, htrim, hnegf, if_neg hsign, if_neg hnan, hsplit]
  rw [if_pos hcond]
  simp

theorem parse_renderCents_pos (k : ℤ) (hk : 0 < k) :
    ∃ d : PyFloat, parseFloatPy (renderCents k) = .ok (some d) ∧ 0 < d.m := by
  have hkneg : ¬(k < 0) := by omega
  have hnpos : 0 < k.natAbs := by omega
  obtain ⟨i0, ip, hcons⟩ : ∃ i0 ip, (natStr (k.natAbs / 100)).data = i0 :: ip := by
    cases hnd : (natStr (k.natAbs / 100)).data with
    | nil => exact absurd hnd (natStr_data_ne_nil _)
    | cons a b => exact ⟨a, b, rfl⟩
  have hd0 : isDigitC i0 = true :=
    natStr_data_digits _ i0 (by rw [hcons]; exact List.mem_cons_self _ _)
  have hip : ∀ c ∈ ip, isDigitC c = true := fun c hc =>
    natStr_data_digits _ c (by rw [hcons]; exact List.mem_cons_of_mem _ hc)
  have hV : natOfDigits (i0 :: ip) = k.natAbs / 100 := by
    rw [← hcons]; exact natOfDigits_natStr _
  by_cases h100 : k.natAbs % 100 = 0
  · have hstr : renderCents k = ⟨(i0 :: ip) ++ '.' :: ['0']⟩ := by
      apply str_eq_of_data
      rw [← hcons]
      simp [renderCents, hkneg, h100, str_data_append]
    rw [hstr, parseFloatPy_digit_parts i0 ip ['0'] hd0 hip (by decide)]
    refine ⟨_, rfl, ?_⟩
    show (0 : ℤ) < Int.ofNat (natOfDigits ((i0 :: ip) ++ ['0']))
    rw [natOfDigits_snoc, hV, show digitVal '0' = 0 from rfl]
    exact Int.ofNat_pos.mpr (by omega)
  · by_cases h10 : k.natAbs % 10 = 0
    · have hstr : renderCents k = ⟨(i0 :: ip) ++ '.' :: (natStr (k.natAbs % 100 / 10)).data⟩ := by
        apply str_eq_of_data
        rw [← hcons]
        simp [renderCents, hkneg, h100, h10, str_data_append]
      rw [hstr, parseFloatPy_digit_parts i0 ip _ hd0 hip
        (fun c hc => natStr_data_digits _ c hc)]
      refine ⟨_, rfl, ?_⟩
      show (0 : ℤ) < Int.ofNat (natOfDigits ((i0 :: ip) ++ (natStr (k.natAbs % 100 / 10)).data))
      rw [natOfDigits_append, natOfDigits_natStr]
      have hv : 0 < k.natAbs % 100 / 10 := by omega
      exact Int.ofNat_pos.mpr (by omega)
    · have hstr : renderCents k = ⟨(i0 :: ip) ++ '.' :: padChars 2 (k.natAbs % 100)⟩ := by
        apply str_eq_of_data
        rw [← hcons]
        simp [renderCents, hkneg, h100, h10, str_data_append]
      rw [hstr, parseFloatPy_digit_parts i0 ip _ hd0 hip
        (fun c hc => padChars_all_digits 2 _ c hc)]
      refine ⟨_, rfl, ?_⟩
      show (0 : ℤ) < Int.ofNat (natOfDigits ((i0 :: ip) ++ padChars 2 (k.natAbs % 100)))
      rw [natOfDigits_append, natOfDigits_padChars 2 _ (by omega)]
      have hv : 0 < k.natAbs % 100 := by omega
      exact Int.ofNat_pos.mpr (by omega)

/-! ### C2: character classes of the generated fields -/

theorem pad2_all_digits (n : ℕ) (c : Char) (h : c ∈ (pad2 n).data) : isDigitC c = true := by
  rw [pad2] at h
  by_cases hn : n < 10
  · rw [if_pos hn, str_data_append] at h
    rcases List.mem_append.mp h with h1 | h2
    · have hc : c = '0' := by simpa using h1
      subst hc
      decide
    · exact natStr_data_digits n c h2
  · rw [if_neg hn] at h
    exact natStr_data_digits n c h

theorem fmtDate_chars (day m y : ℕ) (c : Char) (h : c ∈ (fmtDate day m y).data) :
    isDigitC c = true ∨ c = '/' := by
  have hdata : (fmtDate day m y).data =
      (((pad2 day).data ++ ("/" : String).data) ++ (pad2 m).data ++ ("/" : String).data) ++
        (natStr y).data := rfl
  rw [hdata] at h
  rcases List.mem_append.mp h with h1 | h2
  · rcases List.mem_append.mp h1 with h3 | h4
    · rcases List.mem_append.mp h3 with h5 | h6
      · rcases List.mem_append.mp h5 with h7 | h8
        · exact Or.inl (pad2_all_digits day c h7)
        · exact Or.inr (by simpa using h8)
      · exact Or.inl (pad2_all_digits m c h6)
    · exact Or.inr (by simpa using h4)
  · exact Or.inl (natStr_data_digits y c h2)

theorem renderCents_chars (k : ℤ) (c : Char) (h : c ∈ (renderCents k).data) :
    isDigitC c = true ∨ c = '.' ∨ c = '-' := by
  have hdata : (renderCents k).data =
      (((if k < 0 then ("-" : String) else "").data ++ (natStr (k.natAbs / 100)).data) ++
        ("." : String).data) ++
      (if k.natAbs % 100 = 0 then ("0" : String)
       else if k.natAbs % 10 = 0 then natStr (k.natAbs % 100 / 10)
       else ⟨padChars 2 (k.natAbs % 100)⟩).data := rfl
  rw [hdata] at h
  rcases List.mem_append.mp h with h1 | h2
  · rcases List.mem_append.mp h1 with h3 | h4
    · rcases List.mem_append.mp h3 with h5 | h6
      · split at h5
        · exact Or.inr (Or.inr (by simpa using h5))
        · exact absurd h5 (List.not_mem_nil c)
      · exact Or.inl (natStr_data_digits _ c h6)
    · exact Or.inr (Or.inl (by simpa using h4))
  · split at h2
    · have hc : c = '0' := by simpa using h2
      subst hc
      exact Or.inl (by decide)
    · split at h2
      · exact Or.inl (natStr_data_digits _ c h2)
      · exact Or.inl (padChars_all_digits 2 _ c h2)

theorem fmtDate_ne_comma_nl (day m y : ℕ) (c : Char) (h : c ∈ (fmtDate day m y).data) :
    c ≠ ',' ∧ c ≠ '\n' := by
  rcases fmtDate_chars day m y c h with hd | hs
  · exact ⟨ne_of_digit_classes hd (by decide), ne_of_digit_classes hd (by decide)⟩
  · subst hs
    exact ⟨by decide, by decide⟩

theorem renderCents_ne_comma_nl (k : ℤ) (c : Char) (h : c ∈ (renderCents k).data) :
    c ≠ ',' ∧ c ≠ '\n' := by
  rcases renderCents_chars k c h with hd | hs | hs
  · exact ⟨ne_of_digit_classes hd (by decide), ne_of_digit_classes hd (by decide)⟩
  · subst hs
    exact ⟨by decide, by decide⟩
  · subst hs
    exact ⟨by decide, by decide⟩

/-! ### C2: the shape of one generated data line -/

theorem csvLineBody_data (d : DeductionRecord) :
    (csvLineBody d).data = "AED".data ++ ',' :: ((d.pay_date.getD "").data ++ ',' ::
      (d.component.data ++ ',' :: (d.emp_id.data ++ ',' ::
        ((renderRound2 d.amount).data ++ ',' :: [])))) := by
  simp [csvLineBody, joinSep, CURRENCY, str_data_append]

theorem csvLineBody_data_snoc (d : DeductionRecord) :
    (csvLineBody d).data =
      ("AED," ++ (d.pay_date.getD "") ++ "," ++ d.component ++ "," ++ d.emp_id ++ "," ++
        renderRound2 d.amount).data ++ [','] := by
  simp [csvLineBody, joinSep, CURRENCY, str_data_append]

theorem csvLineBody_getLast (d : DeductionRecord) :
    (csvLineBody d).data.getLast? = some ',' := by
  rw [csvLineBody_data_snoc]
  exact List.getLast?_concat _

theorem csvLineBody_ne_nil (d : DeductionRecord) : (csvLineBody d).data ≠ [] := by
  rw [csvLineBody_data]
  simp

theorem csvLineBody_no_nl (d : DeductionRecord)
    (hpd : ∀ x ∈ (d.pay_date.getD "").data, x ≠ '\n')
    (hcomp : ∀ x ∈ d.component.data, x ≠ '\n')
    (hemp : ∀ x ∈ d.emp_id.data, x ≠ '\n')
    (hamt : ∀ x ∈ (renderRound2 d.amount).data, x ≠ '\n') :
    ∀ x ∈ (csvLineBody d).data, x ≠ '\n' := by
  intro x hx
  rw [csvLineBody_data] at hx
  rcases List.mem_append.mp hx with h1 | h2
  · have hAED : x = 'A' ∨ x = 'E' ∨ x = 'D' := by simpa using h1
    rcases hAED with h3 | h3 | h3 <;> (subst h3; decide)
  · rcases List.mem_cons.mp h2 with h3 | h4
    · subst h3; decide
    · rcases List.mem_append.mp h4 with h5 | h6
      · exact hpd x h5
      · rcases List.mem_cons.mp h6 with h3 | h4
        · subst h3; decide
        · rcases List.mem_append.mp h4 with h5 | h6
          · exact hcomp x h5
          · rcases List.mem_cons.mp h6 with h3 | h4
            · subst h3; decide
            · rcases List.mem_append.mp h4 with h5 | h6
              · exact hemp x h5
              · rcases List.mem_cons.mp h6 with h3 | h4
                · subst h3; decide
                · rcases List.mem_append.mp h4 with h5 | h6
                  · exact hamt x h5
                  · rcases List.mem_cons.mp h6 with h3 | h4
                    · subst h3; decide
                    · exact absurd h4 (List.not_mem_nil x)

theorem csvLineBody_split (d : DeductionRecord)
    (hpd : ∀ x ∈ (d.pay_date.getD "").data, x ≠ ',')
    (hcomp : ∀ x ∈ d.component.data, x ≠ ',')
    (hemp : ∀ x ∈ d.emp_id.data, x ≠ ',')
    (hamt : ∀ x ∈ (renderRound2 d.amount).data, x ≠ ',') :
    splitChar ',' (csvLineBody d).data =
      ["AED".data, (d.pay_date.getD "").data, d.component.data, d.emp_id.data,
        (renderRound2 d.amount).data, []] := by
  rw [csvLineBody_data,
    splitChar_append_cons ',' _ _ (by decide),
    splitChar_append_cons ',' _ _ hpd,
    splitChar_append_cons ',' _ _ hcomp,
    splitChar_append_cons ',' _ _ hemp,
    splitChar_append_cons ',' _ _ hamt]
  rfl

/-! ### C2: the zero test never fires on a generated line -/

theorem check9ZeroLine_false (d : DeductionRecord)
    (hpos : 0 < roundHalfEven2 d.amount)
    (hpd : ∀ x ∈ (d.pay_date.getD "").data, x ≠ ',')
    (hcomp : ∀ x ∈ d.component.data, x ≠ ',')
    (hemp : ∀ x ∈ d.emp_id.data, x ≠ ',') :
    check9ZeroLine (csvLineBody d) = false := by
  obtain ⟨dv, hparse, hm⟩ := parse_renderCents_pos (roundHalfEven2 d.amount) hpos
  have hamt : ∀ x ∈ (renderRound2 d.amount).data, x ≠ ',' := fun x hx =>
    (renderCents_ne_comma_nl _ x hx).1
  have hsplit := csvLineBody_split d hpd hcomp hemp hamt
  have hparts : pySplit ',' (csvLineBody d) =
      [⟨"AED".data⟩, ⟨(d.pay_date.getD "").data⟩, ⟨d.component.data⟩, ⟨d.emp_id.data⟩,
        ⟨(renderRound2 d.amount).data⟩, ⟨[]⟩] := by
    rw [pySplit, hsplit]
    rfl
  have hveq : PyFloat.veq dv pyZero = false := by
    rw [PyFloat.veq]
    rw [decide_eq_false_iff_not]
    intro he
    have he2 : dv.m * pow10 (0 : ℕ) = (0 : ℤ) * pow10 dv.s := he
    rw [show pow10 (0 : ℕ) = 1 from rfl, mul_one, zero_mul] at he2
    omega
  rw [check9ZeroLine, hparts]
  have hg : ([⟨"AED".data⟩, ⟨(d.pay_date.getD "").data⟩, ⟨d.component.data⟩,
      ⟨d.emp_id.data⟩, ⟨(renderRound2 d.amount).data⟩,
      (⟨[]⟩ : String)] : List String).getD 4 "" = renderRound2 d.amount := rfl
  rw [hg, renderRound2, hparse]
  simp [hveq]

/-! ### C2: structure of the rotated records -/

theorem rotateAux_mem_struct (m y D : ℕ) (hD : D ≤ 31) :
    ∀ (ds : List DeductionRecord) (tr : String × String → ℕ) (r' : DeductionRecord),
      r' ∈ rotateAux m y D tr ds →
      ∃ r ∈ ds, r'.emp_id = r.emp_id ∧ r'.component = r.component ∧
        r'.amount = r.amount ∧
        ∃ day, 1 ≤ day ∧ day ≤ 31 ∧ r'.pay_date = some (fmtDate day m y)
  | r :: rs, tr, r', h => by
    rcases List.mem_cons.mp h with h1 | h2
    · refine ⟨r, List.mem_cons_self r rs, ?_⟩
      subst h1
      exact ⟨rfl, rfl, rfl, (if tr (keyOf r) < D then D - tr (keyOf r) else 1),
        by split <;> omega, by split <;> omega, rfl⟩
    · obtain ⟨r0, hr0, hfields⟩ := rotateAux_mem_struct m y D hD rs _ r' h2
      exact ⟨r0, List.mem_cons_of_mem r hr0, hfields⟩

theorem rotate_ne_nil (ds : List DeductionRecord) (m y : ℕ) (h : ds ≠ []) :
    rotate_dates_descending ds m y ≠ [] := by
  cases ds with
  | nil => exact absurd rfl h
  | cons r rs =>
    rw [rotate_dates_descending, rotateAux]
    simp

theorem filterMap_csvLine_of_pos :
    ∀ (l : List DeductionRecord), (∀ d ∈ l, pyZero < d.amount) →
      (l.filterMap fun d => if pyZero < d.amount then some (csvLineOf d) else none) =
        l.map csvLineOf
  | [], _ => rfl
  | d :: l, h => by
    rw [List.filterMap_cons, if_pos (h d (List.mem_cons_self d l)), List.map_cons,
      filterMap_csvLine_of_pos l (fun e he => h e (List.mem_cons_of_mem d he))]

theorem interSep_ne_nil (c : Char) :
    ∀ (L : List (List Char)), L ≠ [] → (∀ l ∈ L, l ≠ []) → interSep c L ≠ []
  | [], h, _ => absurd rfl h
  | [x], _, hL => by rw [interSep]; exact hL x (List.mem_singleton_self x)
  | x :: y :: ys, _, _ => by
    rw [interSep]
    simp

/-- C2 (amended): the CSV round-trip holds once the two failure modes the
code actually has are excluded: for a non-empty record list whose amounts
are positive AND still positive after rounding to two decimals (an amount
below half a cent renders as `0.0` and trips the zero check), and whose
employee-id and component fields contain no comma and no newline (a comma
shifts the split so field 4 is not the amount), the pre-download validator
accepts the generated CSV with an empty error list, for any month and year
in the valid ranges. -/
theorem c2_csv_roundtrip (ds : List DeductionRecord) (m y : ℕ)
    (hne : ds ≠ [])
    (hpos : ∀ r ∈ ds, pyZero < r.amount)
    (hround : ∀ r ∈ ds, 0 < roundHalfEven2 r.amount)
    (hid : ∀ r ∈ ds, noCommaNewline r.emp_id)
    (hcomp : ∀ r ∈ ds, noCommaNewline r.component)
    (hm1 : 1 ≤ m) (hm2 : m ≤ 12) (hy1 : 2020 ≤ y) (hy2 : y ≤ 2050) :
    (check_9_pre_download_validation
      (generate_csv_with_two_header_rows (rotate_dates_descending ds m y))).1 = [] := by
  set rot := rotate_dates_descending ds m y with hrot
  have hrotne : rot ≠ [] := rotate_ne_nil ds m y hne
  have hD31 : get_days_in_month m y ≤ 31 := (get_days_in_month_bounds m y).2
  have hmem : ∀ r' ∈ rot, pyZero < r'.amount ∧ 0 < roundHalfEven2 r'.amount ∧
      noCommaNewline r'.emp_id ∧ noCommaNewline r'.component ∧
      ∃ day, 1 ≤ day ∧ day ≤ 31 ∧ r'.pay_date = some (fmtDate day m y) := by
    intro r' hr'
    obtain ⟨r, hrds, he, hc, ha, hdy⟩ := rotateAux_mem_struct m y _ hD31 ds _ r' hr'
    exact ⟨by rw [ha]; exact hpos r hrds, by rw [ha]; exact hround r hrds,
      by rw [he]; exact hid r hrds, by rw [hc]; exact hcomp r hrds, hdy⟩
  have hpdfield : ∀ r' ∈ rot, ∀ x ∈ (r'.pay_date.getD "").data, x ≠ ',' ∧ x ≠ '\n' := by
    intro r' hr' x hx
    obtain ⟨-, -, -, -, day, -, -, hpd⟩ := hmem r' hr'
    rw [hpd, Option.getD_some] at hx
    exact fmtDate_ne_comma_nl day m y x hx
  have hH1 : joinSep "," ["currency-code", "pay-date", "pay-component-code", "user-id",
      "value", "operation"] =
      "currency-code,pay-date,pay-component-code,user-id,value,operation" := rfl
  have hH2 : joinSep "," ["Currency", "Issue Date", "Pay Component", "User ID",
      "Spot Bonus Amount", "Operation"] =
      "Currency,Issue Date,Pay Component,User ID,Spot Bonus Amount,Operation" := rfl
  have hfm : (rot.filterMap fun d => if pyZero < d.amount then some (csvLineOf d) else none)
      = rot.map csvLineOf :=
    filterMap_csvLine_of_pos rot (fun d hd => (hmem d hd).1)
  have hmapeq : rot.map csvLineOf = (rot.map csvLineBody).map (fun b => b ++ "\n") := by
    rw [List.map_map]
    rfl
  have hBne : rot.map csvLineBody ≠ [] := by
    intro h0
    exact hrotne (List.map_eq_nil_iff.mp h0)
  have hSC : (strConcat ((rot.map csvLineBody).map fun b => b ++ "\n")).data
      = interSep '\n' ((rot.map csvLineBody).map String.data) ++ ['\n'] :=
    strConcat_lines_data (rot.map csvLineBody) hBne
  have hBDne : (rot.map csvLineBody).map String.data ≠ [] := by
    intro h0
    exact hBne (List.map_eq_nil_iff.mp h0)
  have hBD_mem : ∀ l ∈ (rot.map csvLineBody).map String.data,
      ∃ d ∈ rot, l = (csvLineBody d).data := by
    intro l hl
    rw [List.map_map] at hl
    obtain ⟨d, hd, hld⟩ := List.mem_map.mp hl
    exact ⟨d, hd, hld.symm⟩
  have hIlast : (interSep '\n' ((rot.map csvLineBody).map String.data)).getLast?
      = some ',' := by
    refine interSep_getLast? '\n' ',' _ hBDne ?_
    intro l hl
    obtain ⟨d, -, hld⟩ := hBD_mem l hl
    rw [hld]
    exact csvLineBody_getLast d
  have hBD_no_nl : ∀ l ∈ (rot.map csvLineBody).map String.data, ∀ x ∈ l, x ≠ '\n' := by
    intro l hl
    obtain ⟨d, hd, hld⟩ := hBD_mem l hl
    rw [hld]
    refine csvLineBody_no_nl d ?_ ?_ ?_ ?_
    · exact fun x hx => (hpdfield d hd x hx).2
    · exact fun x hx => ((hmem d hd).2.2.2.1 x hx).2
    · exact fun x hx => ((hmem d hd).2.2.1 x hx).2
    · exact fun x hx => (renderCents_ne_comma_nl _ x hx).2
  set X : List Char :=
    "currency-code,pay-date,pay-component-code,user-id,value,operation".data ++ '\n' ::
      ("Currency,Issue Date,Pay Component,User ID,Spot Bonus Amount,Operation".data ++ '\n' ::
        interSep '\n' ((rot.map csvLineBody).map String.data)) with hX
  have hcsvdata : (generate_csv_with_two_header_rows rot).data = X ++ ['\n'] := by
    rw [generate_csv_with_two_header_rows, hfm, hmapeq, hH1, hH2]
    simp only [str_data_append, hSC, hX, List.append_assoc, List.singleton_append,
      show ("\n" : String).data = ['\n'] from rfl, List.cons_append, List.nil_append]
  have hXhead : X.head? = some 'c' := by rw [hX]; rfl
  have hXlast : X.getLast? = some ',' := by
    rw [hX, List.getLast?_append_cons, List.getLast?_cons, List.getLast?_append_cons,
      List.getLast?_cons, hIlast]
    rfl
  have htrim : trimChars (X ++ ['\n']) = X := by
    cases hXv : X with
    | nil => rw [hXv] at hXhead; exact absurd hXhead (by simp)
    | cons x xs =>
      have hx : x = 'c' := by
        rw [hXv] at hXhead
        exact (Option.some.inj hXhead)
      refine trimChars_append_newline x xs (by rw [hx]; decide) ?_
      intro dd hdd
      rw [← hXv, hXlast] at hdd
      rw [← Option.some.inj hdd]
      decide
  have hsplitX : splitChar '\n' X =
      "currency-code,pay-date,pay-component-code,user-id,value,operation".data ::
      "Currency,Issue Date,Pay Component,User ID,Spot Bonus Amount,Operation".data ::
      (rot.map csvLineBody).map String.data := by
    rw [hX, splitChar_append_cons '\n' _ _ (by decide),
      splitChar_append_cons '\n' _ _ (by decide),
      splitChar_interSep '\n' _ hBDne hBD_no_nl]
  have hlines : pySplit '\n' (pyStrip (generate_csv_with_two_header_rows rot)) =
      "currency-code,pay-date,pay-component-code,user-id,value,operation" ::
      "Currency,Issue Date,Pay Component,User ID,Spot Bonus Amount,Operation" ::
      rot.map csvLineBody := by
    rw [pySplit, pyStrip, hcsvdata]
    rw [show (⟨trimChars (X ++ ['\n'])⟩ : String).data = trimChars (X ++ ['\n']) from rfl]
    rw [htrim, hsplitX]
    rw [List.map_cons, List.map_cons, List.map_map]
    refine congrArg₂ List.cons rfl (congrArg₂ List.cons rfl ?_)
    exact List.map_id'' (fun b => rfl) _
  simp only [check_9_pre_download_validation, hlines]
  rw [if_neg (show ¬(("currency-code,pay-date,pay-component-code,user-id,value,operation" ::
      "Currency,Issue Date,Pay Component,User ID,Spot Bonus Amount,Operation" ::
      rot.map csvLineBody).getD 0 "" ≠
      "currency-code,pay-date,pay-component-code,user-id,value,operation")
    from fun hcon => hcon rfl)]
  rw [if_neg (show ¬(("currency-code,pay-date,pay-component-code,user-id,value,operation" ::
      "Currency,Issue Date,Pay Component,User ID,Spot Bonus Amount,Operation" ::
      rot.map csvLineBody).getD 1 "" ≠
      "Currency,Issue Date,Pay Component,User ID,Spot Bonus Amount,Operation")
    from fun hcon => hcon rfl)]
  have hzc : (List.drop 2
      ("currency-code,pay-date,pay-component-code,user-id,value,operation" ::
        "Currency,Issue Date,Pay Component,User ID,Spot Bonus Amount,Operation" ::
        rot.map csvLineBody)).countP check9ZeroLine = 0 := by
    rw [List.drop_succ_cons, List.drop_succ_cons, List.drop_zero]
    rw [List.countP_eq_zero]
    intro line hline
    obtain ⟨d, hd, hld⟩ := List.mem_map.mp hline
    rw [← hld]
    have hfalse := check9ZeroLine_false d ((hmem d hd).2.1)
      (fun x hx => (hpdfield d hd x hx).1)
      (fun x hx => ((hmem d hd).2.2.2.1 x hx).1)
      (fun x hx => ((hmem d hd).2.2.1 x hx).1)
    simp [hfalse]
  rw [hzc]
  rw [if_neg (show ¬((0 : ℕ) < 0) from by omega)]
  have hlenrot : 0 < rot.length := List.length_pos.mpr hrotne
  rw [if_neg (show ¬(("currency-code,pay-date,pay-component-code,user-id,value,operation" ::
      "Currency,Issue Date,Pay Component,User ID,Spot Bonus Amount,Operation" ::
      rot.map csvLineBody).length < 3) from by
    simp only [List.length_cons, List.length_map]
    omega)]
  rfl

/-- C2 counterexample: the record with amount `0.001` satisfies every
hypothesis of the claim (non-empty list, amount strictly positive, month
and year in range), yet `str(round(0.001, 2))` is `"0.0"` and the
pre-download validator reports a zero-amount error on the generated CSV. -/
theorem c2_counterexample :
    tinyAmountRecord.amount = ⟨1, 3⟩ ∧ pyZero < tinyAmountRecord.amount ∧
    1 ≤ 9 ∧ 9 ≤ 12 ∧ 2020 ≤ 2024 ∧ 2024 ≤ 2050 ∧
    (check_9_pre_download_validation (generate_csv_with_two_header_rows
      (rotate_dates_descending [tinyAmountRecord] 9 2024))).1 =
      ["❌ Found 1 records with 0 amount (should be filtered)"] := by
  refine ⟨rfl, by decide, by decide, by decide, by decide, by decide, by decide⟩

/-- Witness for C2 on the example record in September 2024. -/
theorem c2_witness :
    (check_9_pre_download_validation (generate_csv_with_two_header_rows
      (rotate_dates_descending [exampleRecord] 9 2024))).1 = [] :=
  c2_csv_roundtrip [exampleRecord] 9 2024 (by decide) (by decide) (by decide)
    (by decide) (by decide) (by decide) (by decide) (by decide) (by decide)
